import Mathlib

/-
  Verification of the deferred code-emission IR of the asmjit CodeBuilder
  layer, translated from:
    src/asmjit/base/codebuilder.h
    src/asmjit/base/codebuilder.cpp
    src/asmjit/x86/x86ssetoavxpass_p.h
    src/asmjit/x86/x86ssetoavxpass.cpp

  Two complementary views of the node sequence are embedded:
  * a link-level view (explicit prev/next pointers as a heap of links),
    used for the node-management primitives removeNode / removeNodes;
  * a sequence-level view (the node list as a Lean list, the cursor as an
    index), used for the emission surface, the serializer and the
    SSE-to-AVX pass, none of which inspect the raw links.
-/

namespace Asmjit

/-! ## Error codes (base/globals.h is outside the supplied sources; only
    distinctness and the zero success sentinel matter — kErrorOk is 0 in the
    C++ and `if (_lastError)` tests non-zero). -/

abbrev Error := Nat

def kErrorOk : Error := 0

def kErrorNoHeapMemory : Error := 1

def kErrorInvalidLabel : Error := 2

def kErrorInvalidArgument : Error := 3

def kErrorInvalidState : Error := 4

/-! ## Operands.  Operand representation (base/operand.h) is outside the
    supplied sources; the code under src/ only discriminates on the operand
    kind (None / Reg / Mem / Imm / Label) and reads a register's type, so
    operands are modelled as that discriminated sum. -/

inductive Operand where
  | none
  | reg (rType : Nat) (rId : Nat)
  | mem (mId : Nat)
  | imm (value : Int)
  | label (labelId : Nat)
deriving DecidableEq

def Operand.isNone : Operand → Bool
  | Operand.none => true
  | _ => false

def Operand.isReg : Operand → Bool
  | Operand.reg _ _ => true
  | _ => false

def Operand.isMem : Operand → Bool
  | Operand.mem _ => true
  | _ => false

/-- Modelled from the spec: register-type ids live in x86operand.h (outside
    the supplied sources).  Only the distinctness of the two bit positions
    `1 << type` is used by the pass. -/
def kRegMm : Nat := 9

/-- Modelled from the spec: see `kRegMm`. -/
def kRegXmm : Nat := 11

/-- x86::xmm0 — the implicit operand appended by the Blend conversion. -/
def xmm0 : Operand := Operand.reg kRegXmm 0

/-! ## Node flags (codebuilder.h, CBNode::Flags). -/

def kFlagIsCode : Nat := 0x01

def kFlagIsData : Nat := 0x02

def kFlagIsInformative : Nat := 0x04

def kFlagIsRemovable : Nat := 0x08

def kFlagHasNoEffect : Nat := 0x10

def kFlagActsAsInst : Nat := 0x40

def kFlagActsAsLabel : Nat := 0x80

/-! ## CodeEmitter option bits.  The values live in codeemitter.h (outside
    the supplied sources); codebuilder.cpp only ORs and masks them, so any
    distinct single bits are a faithful model. -/

def kOptionMaybeFailureCase : Nat := 1

def kOptionStrictValidation : Nat := 2

def kOptionOp4 : Nat := 4

def kOptionOp5 : Nat := 8

def kOptionOpExtra : Nat := 16

/-- codebuilder.cpp:176-180 — the mask of failure and rare cases tested by
    CodeBuilder::_emit before the fast path. -/
def kErrorsAndSpecialCases : Nat :=
  kOptionMaybeFailureCase ||| kOptionStrictValidation ||| kOptionOp4 ||| kOptionOp5

/-! ## Instruction nodes (codebuilder.h, class CBInst).
    `opArray` holds the embedded operand slots; its length is the operand
    capacity (kBaseOpCapacity = 4 on 64-bit targets, extended capacity 6). -/

def kBaseOpCapacity : Nat := 4

def kExtendedOpCapacity : Nat := 6

structure CBInst where
  instId : Nat
  options : Nat
  opCount : Nat
  opCapacity : Nat
  opArray : List Operand
  opExtra : Operand
deriving DecidableEq

/-- codebuilder.h:457-459 — CBInst::capacityOfOpCount. -/
def capacityOfOpCount (opCount : Nat) : Nat :=
  if opCount ≤ kBaseOpCapacity then kBaseOpCapacity else kExtendedOpCapacity

/-- codebuilder.h:505 — CBInst::setInstId stores through a uint16_t cast
    even though `_instId` and getInstId are 32-bit. -/
def CBInst.setInstId (i : CBInst) (instId : Nat) : CBInst :=
  { i with instId := instId % 65536 }

/-- codebuilder.h:569-577 — CBInst::hasMemOp via hasOpType: scans the first
    opCount operands. -/
def CBInst.hasMemOp (i : CBInst) : Bool :=
  (i.opArray.take i.opCount).any Operand.isMem

/-! ## Node variants (codebuilder.h).  A data node keeps its byte content
    whether stored inline or cloned into the data zone (both paths preserve
    the bytes; getData returns them either way); `getSize` is the length. -/

structure ConstPoolData where
  alignment : Nat
  content : List Nat
deriving DecidableEq

inductive CBNodeVar where
  | inst (i : CBInst)
  | data (bytes : List Nat)
  | align (mode alignment : Nat)
  | label (labelId : Nat)
  | labelData (labelId : Nat)
  | constPool (labelId : Nat) (pool : ConstPoolData)
  | comment
  | sentinel
deriving DecidableEq

/-- A node: variant payload, flags and the inline-comment slot of the CBNode
    base.  (For a comment node the text itself lives in `inlineComment`,
    exactly as in CBComment.)  The prev/next links are kept out of this
    sequence-level view; they are the link-level model further below. -/
structure CBNode where
  var : CBNodeVar
  flags : Nat
  inlineComment : Option String
deriving DecidableEq

/-! ## X86 instruction metadata (consumed interface; x86inst.h is outside
    the supplied sources).  The pass consumes only isDefinedId, getInst,
    isSseFamily and sseData, per the spec's instruction-metadata contract. -/

inductive AvxConvMode where
  | kAvxConvNone
  | kAvxConvMove
  | kAvxConvMoveIfMem
  | kAvxConvExtend
  | kAvxConvBlend
deriving DecidableEq

structure SseData where
  avxConvMode : AvxConvMode
  avxConvDelta : Int
deriving DecidableEq

structure X86InstInfo where
  isSseFamily : Bool
  sseData : SseData
deriving DecidableEq

structure InstDB where
  isDefinedId : Nat → Bool
  getInst : Nat → X86InstInfo

/-! ## X86SseToAvxPass (x86ssetoavxpass_p.h / x86ssetoavxpass.cpp). -/

/-- x86ssetoavxpass_p.h:38 — kProbeMmx = 1 << X86Reg::kRegMm. -/
def kProbeMmx : Nat := 1 <<< kRegMm

/-- x86ssetoavxpass_p.h:39 — kProbeXmm = 1 << X86Reg::kRegXmm. -/
def kProbeXmm : Nat := 1 <<< kRegXmm

/-- x86ssetoavxpass_p.h:42-50 — probeRegs: OR together 1 << reg.type over
    the first opCount operands that are registers. -/
def probeRegs (opArray : List Operand) (opCount : Nat) : Nat :=
  (opArray.take opCount).foldl
    (fun mask op =>
      match op with
      | Operand.reg t _ => mask ||| (1 <<< t)
      | _ => mask)
    0

inductive ProbeOut where
  | abortOk
  | collected (idxs : List Nat)
deriving DecidableEq

/-- The three possible outcomes of the probe body for an Inst node. -/
inductive ProbeStep where
  | skipSame
  | abort
  | collect
deriving DecidableEq

/-- x86ssetoavxpass.cpp:49-95 — the per-Inst decision of the probe loop:
    `skipSame` are the three `continue` branches (lines 52, 56, 62), which
    skip the `node_ = node_->getNext()` at line 97 and so re-run on the
    same node; `abort` are the `return kErrorOk` branches (lines 70, 78,
    83, 91); `collect` is `insts.append(inst)` (line 94). -/
def probeInstStep (db : InstDB) (i : CBInst) : ProbeStep :=
  -- line 52: `if (!X86Inst::isDefinedId(instId)) continue;`
  if ¬ db.isDefinedId i.instId then ProbeStep.skipSame
  -- line 56: `if (!instData.isSseFamily()) continue;`
  else if ¬ (db.getInst i.instId).isSseFamily then ProbeStep.skipSame
  else
    let regTypes := probeRegs i.opArray i.opCount
    -- line 62: `if (!(regTypes & kProbeXmm)) continue;`
    if regTypes &&& kProbeXmm = 0 then ProbeStep.skipSame
    -- lines 87-92: MMX mix — CANNOT TRANSLATE, return kErrorOk.
    else if regTypes &&& kProbeMmx ≠ 0 then ProbeStep.abort
    else
      match (db.getInst i.instId).sseData.avxConvMode with
      | AvxConvMode.kAvxConvNone => ProbeStep.abort
      | AvxConvMode.kAvxConvMove => ProbeStep.collect
      | AvxConvMode.kAvxConvMoveIfMem =>
          if i.opCount < 1 ∨ i.opCount > 3 then ProbeStep.abort else ProbeStep.collect
      | AvxConvMode.kAvxConvExtend =>
          if i.opCount < 1 ∨ i.opCount > 3 then ProbeStep.abort else ProbeStep.collect
      | AvxConvMode.kAvxConvBlend =>
          if i.opCount < 2 ∨ i.opCount > 3 then ProbeStep.abort else ProbeStep.collect

/-- x86ssetoavxpass.cpp:46-98 — the probe loop of X86SseToAvxPass::run.
    The current node pointer is the index `idx` into the builder's node
    list; `acc` is the ZoneStack of collected nodes (in append order,
    popFirst later replays it FIFO).  A `skipSame` step recurses with the
    SAME index; `fuel` counts loop iterations and a `none` result for
    every fuel models non-termination. -/
def probeLoop (db : InstDB) (nodes : List CBNode) :
    Nat → Nat → List Nat → Option ProbeOut
  | 0, _, _ => Option.none
  | Nat.succ fuel, idx, acc =>
    match nodes[idx]? with
    | Option.none => some (ProbeOut.collected acc)
    | some nd =>
      match nd.var with
      | CBNodeVar.inst i =>
        match probeInstStep db i with
        | ProbeStep.skipSame => probeLoop db nodes fuel idx acc
        | ProbeStep.abort => some ProbeOut.abortOk
        | ProbeStep.collect => probeLoop db nodes fuel (idx + 1) (acc ++ [idx])
      | _ => probeLoop db nodes fuel (idx + 1) acc

/-- x86ssetoavxpass.cpp:138-139 — the Extend shift
    `for (i = opCount; i > 0; i--) inst->setOp(i, inst->getOp(i - 1));`
    embedded as the literal downward loop (writes at higher indices never
    feed the later reads of lower indices). -/
def extendLoop (opArray : List Operand) : Nat → List Operand
  | 0 => opArray
  | Nat.succ k => extendLoop (opArray.set (k + 1) (opArray.getD k Operand.none)) k

/-- x86ssetoavxpass.cpp:103-146 — the rewrite applied to one collected
    instruction node: reshape the operands by conversion mode, then apply
    avxConvDelta to the instruction id with int32 wrap-around and store it
    through setInstId (16-bit truncating). -/
def patchInst (db : InstDB) (i : CBInst) : CBInst :=
  let opCount := i.opCount
  let sseData := (db.getInst i.instId).sseData
  let i' : CBInst :=
    match sseData.avxConvMode with
    | AvxConvMode.kAvxConvNone => i
    | AvxConvMode.kAvxConvMove => i
    | AvxConvMode.kAvxConvMoveIfMem =>
        if i.hasMemOp then i
        else { i with opArray := extendLoop i.opArray opCount, opCount := opCount + 1 }
    | AvxConvMode.kAvxConvBlend =>
        -- line 132-133: `if (opCount == 2) inst->_opArray[opCount++] = x86::xmm0;`
        let ops1 := if opCount = 2 then i.opArray.set 2 xmm0 else i.opArray
        let c1 := if opCount = 2 then 3 else opCount
        { i with opArray := extendLoop ops1 c1, opCount := c1 + 1 }
    | AvxConvMode.kAvxConvExtend =>
        { i with opArray := extendLoop i.opArray opCount, opCount := opCount + 1 }
  i'.setInstId ((((i'.instId : Int) + sseData.avxConvDelta).emod (2 ^ 32)).toNat)

def patchNode (db : InstDB) (nd : CBNode) : CBNode :=
  match nd.var with
  | CBNodeVar.inst i => { nd with var := CBNodeVar.inst (patchInst db i) }
  | _ => nd

/-- List update at an index (identity when out of range), used to patch a
    collected node in place in the sequence-level view. -/
def listModify (l : List CBNode) (k : Nat) (f : CBNode → CBNode) : List CBNode :=
  match l[k]? with
  | some x => l.set k (f x)
  | Option.none => l

/-- x86ssetoavxpass.cpp:103-146 — the second loop: pop the collected nodes
    FIFO and patch each in place. -/
def rewriteAll (db : InstDB) (nodes : List CBNode) (idxs : List Nat) : List CBNode :=
  idxs.foldl (fun ns k => listModify ns k (patchNode db)) nodes

structure RunResult where
  err : Error
  nodes : List CBNode
  translated : Bool
deriving DecidableEq

/-- x86ssetoavxpass.cpp:36-150 — X86SseToAvxPass::run over the builder's
    node list.  `Option.none` models non-termination of the probe loop
    (for every fuel).  An abort (`return kErrorOk` at lines 70, 78, 83, 91)
    leaves the IR unchanged and `_translated` false; a completed run
    patches the collected nodes and sets `_translated`. -/
def sseToAvxRun (db : InstDB) (nodes : List CBNode) (fuel : Nat) : Option RunResult :=
  match probeLoop db nodes fuel 0 [] with
  | Option.none => Option.none
  | some ProbeOut.abortOk => some { err := kErrorOk, nodes := nodes, translated := false }
  | some (ProbeOut.collected idxs) =>
      some { err := kErrorOk, nodes := rewriteAll db nodes idxs, translated := true }

/-! ## The code holder (external collaborator; only `new_label_id`,
    `new_named_label_id`, `labels_count`, `is_label_valid` are consumed). -/

/-- Modelled from the spec: the code-holder owns label-id allocation
    (codeholder.h/cpp are outside the supplied sources).  Ids are issued
    densely from `labelsCount`; `Operand::packId`/`unpackId` are modelled as
    the identity, so an id is at the same time its index into the
    builder's label vector. -/
structure CodeHolder where
  labelsCount : Nat
deriving DecidableEq

/-- Modelled from the spec: `new_named_label_id(&id, name, len, type,
    parent_id)` issues a fresh id (the claims under study assume the
    allocator succeeds, so failure paths are not modelled). -/
def CodeHolder.newNamedLabelId (c : CodeHolder) (_name : String)
    (_type _parentId : Nat) : Nat × CodeHolder :=
  (c.labelsCount, { labelsCount := c.labelsCount + 1 })

/-! ## Builder state (codebuilder.h members plus the CodeEmitter base
    fields `_lastError`, `_options`, `_globalOptions`, `_inlineComment`,
    `_op4`, `_op5`, `_opExtra` that codebuilder.cpp reads and writes).

    `nodes`/`cursor` are the sequence-level view of the node list: the list
    in order, and the cursor as the index of the node it points at (or none
    for a null cursor).  `labels` is `_cbLabels` (entry = label id of the
    cached CBLabel node).  `linkedLabels` records which cached label nodes
    are currently linked into the list — the information addNode's
    `ASMJIT_ASSERT(node->getPrev() == nullptr)` tests on the pointer
    representation. -/
structure CodeBuilder where
  code : CodeHolder
  lastError : Error
  options : Nat
  globalOptions : Nat
  inlineComment : Option String
  op4 : Operand
  op5 : Operand
  opExtra : Operand
  nodeFlags : Nat
  nodes : List CBNode
  cursor : Option Nat
  labels : List (Option Nat)
  linkedLabels : List Nat
deriving DecidableEq

def initBuilder (c : CodeHolder) : CodeBuilder where
  code := c
  lastError := kErrorOk
  options := 0
  globalOptions := 0
  inlineComment := Option.none
  op4 := Operand.none
  op5 := Operand.none
  opExtra := Operand.none
  nodeFlags := 0
  nodes := []
  cursor := Option.none
  labels := []
  linkedLabels := []

/-- Modelled from the spec: `setLastError` lives in the CodeEmitter base
    (outside the supplied sources).  Per the spec it latches the sticky
    error; per the spec's note on `MaybeFailureCase` ("tested at emit time
    but never set by any code path shown; treat as reserved ... document as
    no-op under current rules") it does not touch the global options. -/
def setLastError (b : CodeBuilder) (e : Error) : CodeBuilder × Error :=
  ({ b with lastError := e }, e)

/-- codebuilder.cpp:368-400 — CodeBuilder::addNode on the sequence view:
    null cursor on an empty list starts the list, null cursor on a
    non-empty list prepends, otherwise the node goes right after the
    cursor; the cursor then points at the new node. -/
def addNode (b : CodeBuilder) (nd : CBNode) : CodeBuilder :=
  match b.cursor with
  | Option.none =>
    match b.nodes with
    | [] => { b with nodes := [nd], cursor := some 0 }
    | _ => { b with nodes := nd :: b.nodes, cursor := some 0 }
  | some i => { b with nodes := b.nodes.insertIdx (i + 1) nd, cursor := some (i + 1) }

def instNodeFlags : Nat := kFlagIsCode ||| kFlagIsRemovable ||| kFlagActsAsInst

def labelNodeFlags : Nat := kFlagHasNoEffect ||| kFlagActsAsLabel

def alignNodeFlags : Nat := kFlagIsCode ||| kFlagHasNoEffect

def commentNodeFlags : Nat := kFlagIsInformative ||| kFlagHasNoEffect ||| kFlagIsRemovable

/-- Clear the bits of `m` in `x` (the C++ `x &= ~m` on uint32).  Since
    `x &&& m` has exactly the common bits, plain subtraction clears them. -/
def clearBits (x m : Nat) : Nat := x - (x &&& m)

/-- Grow the label vector to length `n`, padding with null entries
    (`ZoneVector::resize`). -/
def padTo (l : List (Option Nat)) (n : Nat) : List (Option Nat) :=
  l ++ List.replicate (n - l.length) Option.none

/-- codebuilder.cpp:166-246 — continuation of CodeBuilder::_emit after the
    special-cases block: reset the one-shot state, allocate and fill the
    instruction node, and append it.  Allocation is modelled as succeeding;
    in C++ `_opExtra` is left uninitialized when `kOptionOpExtra` is unset,
    modelled here as `Operand.none`. -/
def emitCont (b : CodeBuilder) (instId : Nat) (o0 o1 o2 o3 : Operand)
    (options opCount : Nat) (inlineComment : Option String) : CodeBuilder × Error :=
  let b1 := { b with options := 0, inlineComment := Option.none }
  let opCapacity := capacityOfOpCount opCount
  let ops0 : List Operand :=
    if opCapacity > 4 then [o0, o1, o2, o3, Operand.none, Operand.none] else [o0, o1, o2, o3]
  let ops1 := if options &&& kOptionOp4 ≠ 0 then ops0.set 4 b.op4 else ops0
  let ops2 := if options &&& kOptionOp5 ≠ 0 then ops1.set 5 b.op5 else ops1
  let opExtra := if options &&& kOptionOpExtra ≠ 0 then b.opExtra else Operand.none
  let i : CBInst :=
    { instId := instId, options := options, opCount := opCount,
      opCapacity := opCapacity, opArray := ops2, opExtra := opExtra }
  let nd : CBNode :=
    { var := CBNodeVar.inst i, flags := instNodeFlags ||| b.nodeFlags,
      inlineComment := inlineComment }
  (addNode b1 nd, kErrorOk)

/-- codebuilder.cpp:170-173 — operand count from the first trailing None. -/
def deriveOpCount (o0 o1 o2 o3 : Operand) : Nat :=
  if ¬ o3.isNone then 4
  else if ¬ o2.isNone then 3
  else if ¬ o1.isNone then 2
  else if ¬ o0.isNone then 1
  else 0

/-- codebuilder.cpp:166-246 — CodeBuilder::_emit.  Note that the latched
    error is consulted only inside the special-cases block (line 182-185);
    with no special option bit in `options | globalOptions` the fast path
    allocates and appends even when an error is latched.  The external
    validator behind kOptionStrictValidation is outside the supplied
    sources and the spec gives it no failing semantics, so validation is
    modelled as succeeding. -/
def emit (b : CodeBuilder) (instId : Nat) (o0 o1 o2 o3 : Operand) : CodeBuilder × Error :=
  let options := b.options ||| b.globalOptions
  let inlineComment := b.inlineComment
  let opCount := deriveOpCount o0 o1 o2 o3
  if options &&& kErrorsAndSpecialCases ≠ 0 then
    if b.lastError ≠ kErrorOk then (b, b.lastError)
    else
      let opCount1 :=
        if options &&& kOptionOp5 ≠ 0 then 6
        else if options &&& kOptionOp4 ≠ 0 then 5
        else opCount
      let options1 := clearBits options (kOptionMaybeFailureCase ||| kOptionStrictValidation)
      emitCont b instId o0 o1 o2 o3 options1 opCount1 inlineComment
  else
    emitCont b instId o0 o1 o2 o3 options opCount inlineComment

/-- codebuilder.cpp:266-282 — CodeBuilder::newNamedLabel.  Returned: the
    new builder state, the id wrapped by the returned Label, and the `_id`
    stored in the allocated CBLabel node (none when the latch was set and
    no node was allocated).  The function constructs the node with the
    local `id` (still 0), asks the code-holder for a named id, and on
    success re-reads `id = node->getId()`; unlike newLabel it never calls
    registerLabelNode, so `_cbLabels` is untouched. -/
structure NamedLabelOut where
  builder : CodeBuilder
  labelId : Nat
  nodeId : Option Nat
deriving DecidableEq

def newNamedLabel (b : CodeBuilder) (name : String) (type parentId : Nat) : NamedLabelOut :=
  -- uint32_t id = 0;
  if b.lastError ≠ kErrorOk then { builder := b, labelId := 0, nodeId := Option.none }
  else
    -- CBLabel* node = newNodeT<CBLabel>(id);  (allocation modelled as succeeding)
    let nodeId : Nat := 0
    let (_freshId, code') := b.code.newNamedLabelId name type parentId
    -- on success: id = node->getId();
    let id := nodeId
    { builder := { b with code := code' }, labelId := id, nodeId := some nodeId }

/-- codebuilder.cpp:96-115 — CodeBuilder::registerLabelNode: ask the
    code-holder for a fresh (anonymous) id, grow `_cbLabels`, store the
    node and stamp its id.  Returns none on the internal
    `ASMJIT_ASSERT(_cbLabels.getLength() < index + 1)` failing. -/
def registerLabelNode (b : CodeBuilder) (nodeId : Nat) : Option (CodeBuilder × Error × Nat) :=
  if b.lastError ≠ kErrorOk then some (b, b.lastError, nodeId)
  else
    let id := b.code.labelsCount
    let code' : CodeHolder := { labelsCount := id + 1 }
    if ¬ (b.labels.length < id + 1) then Option.none
    else
      let labels' := (padTo b.labels (id + 1)).set id (some id)
      some ({ b with code := code', labels := labels' }, kErrorOk, id)

/-- codebuilder.cpp:284-295 plus 71-94 — CodeBuilder::bind via getCBLabel:
    latch-gate, validate the id against the code-holder, fetch or create
    the cached CBLabel node, then append it.  A second bind of the same
    label reaches addNode with a node whose links are not null; that
    assertion failure is the `Option.none` result. -/
def bind (b : CodeBuilder) (labelId : Nat) : Option (CodeBuilder × Error) :=
  if b.lastError ≠ kErrorOk then some (b, b.lastError)
  else if b.code.labelsCount ≤ labelId then some (setLastError b kErrorInvalidLabel)
  else
    let b1 :=
      if (b.labels.getD labelId Option.none).isSome then b
      else { b with labels := (padTo b.labels (labelId + 1)).set labelId (some labelId) }
    if labelId ∈ b1.linkedLabels then Option.none
    else
      let nd : CBNode :=
        { var := CBNodeVar.label labelId, flags := labelNodeFlags ||| b.nodeFlags,
          inlineComment := Option.none }
      some ({ addNode b1 nd with linkedLabels := labelId :: b1.linkedLabels }, kErrorOk)

/-- codebuilder.cpp:297-307 — CodeBuilder::align. -/
def align (b : CodeBuilder) (mode alignment : Nat) : CodeBuilder × Error :=
  if b.lastError ≠ kErrorOk then (b, b.lastError)
  else
    let nd : CBNode :=
      { var := CBNodeVar.align mode alignment, flags := alignNodeFlags ||| b.nodeFlags,
        inlineComment := Option.none }
    (addNode b nd, kErrorOk)

/-- codebuilder.cpp:309-319 plus 128-139 — CodeBuilder::embed via
    newDataNode.  Inline storage and the data-zone clone both keep the
    same bytes, so the node carries the byte list; its size is the length. -/
def embed (b : CodeBuilder) (bytes : List Nat) : CodeBuilder × Error :=
  if b.lastError ≠ kErrorOk then (b, b.lastError)
  else
    let nd : CBNode :=
      { var := CBNodeVar.data bytes, flags := kFlagIsData ||| b.nodeFlags,
        inlineComment := Option.none }
    (addNode b nd, kErrorOk)

/-- codebuilder.cpp:321-331 — CodeBuilder::embedLabel. -/
def embedLabel (b : CodeBuilder) (labelId : Nat) : CodeBuilder × Error :=
  if b.lastError ≠ kErrorOk then (b, b.lastError)
  else
    let nd : CBNode :=
      { var := CBNodeVar.labelData labelId, flags := kFlagIsData ||| b.nodeFlags,
        inlineComment := Option.none }
    (addNode b nd, kErrorOk)

/-- codebuilder.cpp:352-362 plus 148-160 — CodeBuilder::comment via
    newCommentNode (the text, duplicated into the data zone, becomes the
    node's inline-comment slot). -/
def comment (b : CodeBuilder) (s : String) : CodeBuilder × Error :=
  if b.lastError ≠ kErrorOk then (b, b.lastError)
  else
    let nd : CBNode :=
      { var := CBNodeVar.comment, flags := commentNodeFlags ||| b.nodeFlags,
        inlineComment := some s }
    (addNode b nd, kErrorOk)

/-- Modelled from the spec: `isLabelValid` of the CodeEmitter base checks
    the label against the code-holder (`is_label_valid(label)`), i.e. the
    id is within the issued range. -/
def isLabelValid (b : CodeBuilder) (labelId : Nat) : Bool :=
  labelId < b.code.labelsCount

def kAlignData : Nat := 1

/-- codebuilder.cpp:333-350 — CodeBuilder::embedConstPool: latch-gate,
    validate the label, align to the pool's alignment, bind the label,
    then append a data node filled from the pool.  ASMJIT_PROPAGATE on
    align/bind returns their error. -/
def embedConstPool (b : CodeBuilder) (labelId : Nat) (pool : ConstPoolData) :
    Option (CodeBuilder × Error) :=
  if b.lastError ≠ kErrorOk then some (b, b.lastError)
  else if ¬ isLabelValid b labelId then some (setLastError b kErrorInvalidLabel)
  else
    let (b1, e1) := align b kAlignData pool.alignment
    if e1 ≠ kErrorOk then some (b1, e1)
    else
      match bind b1 labelId with
      | Option.none => Option.none
      | some (b2, e2) =>
        if e2 ≠ kErrorOk then some (b2, e2)
        else
          let nd : CBNode :=
            { var := CBNodeVar.data pool.content, flags := kFlagIsData ||| b2.nodeFlags,
              inlineComment := Option.none }
          some (addNode b2 nd, kErrorOk)

/-! ## Emission command language: the emitter calls of the round-trip law.
    The same type doubles as the record of calls a capturing emitter
    receives from the serializer. -/

inductive EmitCmd where
  | emitI (instId : Nat) (o0 o1 o2 o3 : Operand)
  | bindL (labelId : Nat)
  | alignA (mode alignment : Nat)
  | embedD (bytes : List Nat)
  | embedLabelL (labelId : Nat)
  | commentC (text : String)
  | embedConstPoolP (labelId : Nat) (pool : ConstPoolData)
deriving DecidableEq

def EmitCmd.isConstPoolCmd : EmitCmd → Bool
  | EmitCmd.embedConstPoolP _ _ => true
  | _ => false

def applyCmd (b : CodeBuilder) : EmitCmd → Option CodeBuilder
  | EmitCmd.emitI instId o0 o1 o2 o3 => some (emit b instId o0 o1 o2 o3).1
  | EmitCmd.bindL l => (bind b l).map Prod.fst
  | EmitCmd.alignA m a => some (align b m a).1
  | EmitCmd.embedD bytes => some (embed b bytes).1
  | EmitCmd.embedLabelL l => some (embedLabel b l).1
  | EmitCmd.commentC s => some (comment b s).1
  | EmitCmd.embedConstPoolP l p => (embedConstPool b l p).map Prod.fst

def buildRun (b : CodeBuilder) : List EmitCmd → Option CodeBuilder
  | [] => some b
  | c :: cs =>
    match applyCmd b c with
    | some b' => buildRun b' cs
    | Option.none => Option.none

/-! ## Serializer (codebuilder.cpp:587-663) against a capturing emitter.
    The capture records every primary emitter call in order and holds the
    emitter-contract transient slots; all its operations succeed, so the
    `if (err) break` in the loop never fires. -/

def emptyStr : String := ""

structure Capture where
  calls : List EmitCmd
  inlineComment : Option String
  options : Nat
  op4 : Operand
  op5 : Operand
  opExtra : Operand
deriving DecidableEq

def initCapture : Capture where
  calls := []
  inlineComment := Option.none
  options := 0
  op4 := Operand.none
  op5 := Operand.none
  opExtra := Operand.none

/-- codebuilder.cpp:591-656 — the per-node body of the serialize loop:
    propagate the inline comment, then dispatch on the node type.  The
    default branch handles only nodes that act as instructions or labels;
    the eight concrete variants modelled here are fully covered by the
    switch, and a sentinel (informative, no acts-as flag) is skipped. -/
def serializeStep (c : Capture) (nd : CBNode) : Capture :=
  let c1 := { c with inlineComment := nd.inlineComment }
  match nd.var with
  | CBNodeVar.inst i =>
    let c2 := { c1 with options := i.options, opExtra := i.opExtra }
    let c3 :=
      if i.opCount > 4 then
        let c3a := { c2 with op4 := i.opArray.getD 4 Operand.none }
        if i.opCount = 6 then { c3a with op5 := i.opArray.getD 5 Operand.none } else c3a
      else c2
    { c3 with calls := c3.calls ++ [EmitCmd.emitI i.instId (i.opArray.getD 0 Operand.none)
        (i.opArray.getD 1 Operand.none) (i.opArray.getD 2 Operand.none)
        (i.opArray.getD 3 Operand.none)] }
  | CBNodeVar.data bytes => { c1 with calls := c1.calls ++ [EmitCmd.embedD bytes] }
  | CBNodeVar.align m a => { c1 with calls := c1.calls ++ [EmitCmd.alignA m a] }
  | CBNodeVar.label l => { c1 with calls := c1.calls ++ [EmitCmd.bindL l] }
  | CBNodeVar.labelData l => { c1 with calls := c1.calls ++ [EmitCmd.embedLabelL l] }
  | CBNodeVar.constPool l p => { c1 with calls := c1.calls ++ [EmitCmd.embedConstPoolP l p] }
  | CBNodeVar.comment =>
    { c1 with calls := c1.calls ++ [EmitCmd.commentC (nd.inlineComment.getD emptyStr)] }
  | CBNodeVar.sentinel => c1

/-- codebuilder.cpp:587-663 — CodeBuilder::serialize.  The loop is a
    do-while seeded with `getFirstNode()`: on an empty list the body runs
    once and dereferences the null node pointer, modelled as the
    `Option.none` result; on a non-empty list the capture never errors and
    every node is processed in order. -/
def serialize (nodes : List CBNode) (c : Capture) : Option (Error × Capture) :=
  match nodes with
  | [] => Option.none
  | x :: xs => some (kErrorOk, (x :: xs).foldl serializeStep c)

/-! ## Link-level model of the node list (codebuilder.h `CBNode::_link[2]`,
    codebuilder.cpp removeNode / removeNodes).  Nodes are identified by
    ids; the heap maps every id to its prev/next links (0-initialised, i.e.
    both null, for ids outside the list). -/

structure Link where
  prev : Option Nat
  next : Option Nat
deriving DecidableEq

structure LinkedState where
  heap : Nat → Link
  first : Option Nat
  last : Option Nat
  cursor : Option Nat

/-- `node->_setNext(v)` at node `i`. -/
def hSetNext (h : Nat → Link) (i : Nat) (v : Option Nat) : Nat → Link :=
  fun j => if j = i then { prev := (h i).prev, next := v } else h j

/-- `node->_setPrev(v)` at node `i`. -/
def hSetPrev (h : Nat → Link) (i : Nat) (v : Option Nat) : Nat → Link :=
  fun j => if j = i then { prev := v, next := (h i).next } else h j

/-- `node->_setPrev(nullptr); node->_setNext(nullptr);` at node `i`. -/
def hClear (h : Nat → Link) (i : Nat) : Nat → Link :=
  fun j => if j = i then { prev := Option.none, next := Option.none } else h j

/-- codebuilder.cpp:445-466 — CodeBuilder::removeNode, statement by
    statement.  The two `else` branches dereference `prev` resp. `next`;
    a null dereference there is the `Option.none` result. -/
def removeNode (s : LinkedState) (n : Nat) : Option LinkedState :=
  let pr := (s.heap n).prev
  let nx := (s.heap n).next
  -- if (_firstNode == node) _firstNode = next; else prev->_setNext(next);
  let step1 : Option ((Nat → Link) × Option Nat) :=
    if s.first = some n then some (s.heap, nx)
    else
      match pr with
      | some p => some (hSetNext s.heap p nx, s.first)
      | Option.none => Option.none
  match step1 with
  | Option.none => Option.none
  | some (h1, first') =>
    -- if (_lastNode == node) _lastNode = prev; else next->_setPrev(prev);
    let step2 : Option ((Nat → Link) × Option Nat) :=
      if s.last = some n then some (h1, pr)
      else
        match nx with
        | some q => some (hSetPrev h1 q pr, s.last)
        | Option.none => Option.none
    match step2 with
    | Option.none => Option.none
    | some (h2, last') =>
      let h3 := hClear h2 n
      let cursor' := if s.cursor = some n then pr else s.cursor
      some { heap := h3, first := first', last := last', cursor := cursor' }

inductive RemResult where
  | ok (s : LinkedState)
  | assertNextNull
  | nullDerefR
  | fuelOut

/-- codebuilder.cpp:487-501 — the link-clearing `for (;;)` loop of
    removeNodes: read the successor, assert it is non-null, clear the
    node's links, retreat the cursor, stop after `last`.  `pr` is the
    captured predecessor of the removed range. -/
def clearLoop (last : Nat) (pr : Option Nat) :
    Nat → (Nat → Link) → Option Nat → Nat → RemResult
  | 0, _, _, _ => RemResult.fuelOut
  | Nat.succ fuel, h, cur, node =>
    match (h node).next with
    | Option.none => RemResult.assertNextNull
    | some next =>
      let h' := hClear h node
      let cur' := if cur = some node then pr else cur
      if node = last then RemResult.ok ⟨h', Option.none, Option.none, cur'⟩
      else clearLoop last pr fuel h' cur' next

/-- codebuilder.cpp:468-502 — CodeBuilder::removeNodes.  The `first == last`
    case delegates to removeNode; otherwise the range is unlinked in O(1)
    and the clearing loop runs over it (with fuel, which any terminating
    concrete execution exhausts to either a result or an assertion
    failure). -/
def removeNodes (s : LinkedState) (first last : Nat) (fuel : Nat) : RemResult :=
  if first = last then
    match removeNode s first with
    | some s' => RemResult.ok s'
    | Option.none => RemResult.nullDerefR
  else
    let pr := (s.heap first).prev
    let nx := (s.heap last).next
    let step1 : Option ((Nat → Link) × Option Nat) :=
      if s.first = some first then some (s.heap, nx)
      else
        match pr with
        | some p => some (hSetNext s.heap p nx, s.first)
        | Option.none => Option.none
    match step1 with
    | Option.none => RemResult.nullDerefR
    | some (h1, first') =>
      let step2 : Option ((Nat → Link) × Option Nat) :=
        if s.last = some last then some (h1, pr)
        else
          match nx with
          | some q => some (hSetPrev h1 q pr, s.last)
          | Option.none => Option.none
      match step2 with
      | Option.none => RemResult.nullDerefR
      | some (h2, last') =>
        match clearLoop last pr fuel h2 s.cursor first with
        | RemResult.ok s' =>
          RemResult.ok { heap := s'.heap, first := first', last := last', cursor := s'.cursor }
        | r => r

/-- The consistency relation between adjacent nodes of the chain. -/
def rel (h : Nat → Link) (a b : Nat) : Prop :=
  (h a).next = some b ∧ (h b).prev = some a

/-- Well-formedness of the link-level state against the abstract node
    sequence `l` (spec §3, invariant 1-3): the links realise exactly the
    chain `l`, the endpoints carry null outer links, and first/last mirror
    the ends of `l`. -/
structure Wf (s : LinkedState) (l : List Nat) : Prop where
  nodup : l.Nodup
  first_eq : s.first = l.head?
  last_eq : s.last = l.getLast?
  head_prev : ∀ a, l.head? = some a → (s.heap a).prev = Option.none
  last_next : ∀ a, l.getLast? = some a → (s.heap a).next = Option.none
  chain : List.Chain' (rel s.heap) l

/-! ## Concrete fixtures used by the concrete theorems below. -/

/-- A small concrete instruction database standing in for the x86
    instruction tables (an external collaborator: the pass consumes only
    these three queries).  Id 100 is a Blend-convertible SSE instruction
    (delta 50), id 200 Extend-convertible (delta 60), id 300
    Move-convertible (delta 70), id 400 defined but not SSE-family. -/
def testDb : InstDB where
  isDefinedId := fun id => id == 100 || id == 200 || id == 300 || id == 400
  getInst := fun id =>
    if id == 100 then ⟨true, ⟨AvxConvMode.kAvxConvBlend, 50⟩⟩
    else if id == 200 then ⟨true, ⟨AvxConvMode.kAvxConvExtend, 60⟩⟩
    else if id == 300 then ⟨true, ⟨AvxConvMode.kAvxConvMove, 70⟩⟩
    else if id == 400 then ⟨false, ⟨AvxConvMode.kAvxConvNone, 0⟩⟩
    else ⟨false, ⟨AvxConvMode.kAvxConvNone, 0⟩⟩

/-- An instruction node with two register operands, capacity 4. -/
def mkInst2 (id : Nat) (r0 r1 : Operand) : CBNode :=
  ⟨CBNodeVar.inst ⟨id, 0, 2, 4, [r0, r1, Operand.none, Operand.none], Operand.none⟩,
    instNodeFlags, Option.none⟩

/-- `BLENDVPS xmm1, xmm2` under `testDb`. -/
def blendN : CBNode := mkInst2 100 (Operand.reg kRegXmm 1) (Operand.reg kRegXmm 2)

/-- `ADDPS xmm0, xmm1` (Extend-convertible) under `testDb`. -/
def extendN : CBNode := mkInst2 200 (Operand.reg kRegXmm 0) (Operand.reg kRegXmm 1)

/-- An SSE instruction mixing an XMM and an MMX register (the probe aborts
    on it). -/
def mmxN : CBNode := mkInst2 100 (Operand.reg kRegXmm 0) (Operand.reg kRegMm 0)

/-- An Inst node whose id is not defined in `testDb`. -/
def undefN : CBNode := mkInst2 999 (Operand.reg kRegXmm 1) (Operand.reg kRegXmm 2)

/-- A defined but non-SSE-family instruction node. -/
def nonSseN : CBNode := mkInst2 400 (Operand.reg kRegXmm 1) (Operand.reg kRegXmm 2)

/-- A defined SSE-family instruction node that uses no XMM register. -/
def noXmmN : CBNode := mkInst2 300 (Operand.reg 6 0) (Operand.imm 7)

/-- A builder attached to a code holder that has already issued one label
    id (so the next named id is 1, distinguishable from 0). -/
def b2 : CodeBuilder := initBuilder ⟨1⟩

def strX : String := "x"

def hiStr : String := "hi"

/-- A builder with a latched error and no special option bits in effect. -/
def bErr : CodeBuilder := { initBuilder ⟨0⟩ with lastError := kErrorNoHeapMemory }

/-- A builder with a latched error whose global options carry
    kOptionMaybeFailureCase (the state the real CodeEmitter would be in). -/
def bErrW : CodeBuilder :=
  { initBuilder ⟨1⟩ with lastError := kErrorNoHeapMemory, globalOptions := kOptionMaybeFailureCase }

/-- Node lists on which the pass aborts after having seen a convertible
    node first. -/
def cexBlendList : List CBNode := [blendN, mmxN]

def cexExtendList : List CBNode := [extendN, mmxN]

/-- The concrete three-node chain 1 - 2 - 3 at the link level. -/
def heap123 : Nat → Link := fun j =>
  if j = 1 then ⟨Option.none, some 2⟩
  else if j = 2 then ⟨some 1, some 3⟩
  else if j = 3 then ⟨some 2, Option.none⟩
  else ⟨Option.none, Option.none⟩

/-- Chain 1 - 2 - 3 with the cursor on node 3 (inside the range removed by
    the C9 failing input). -/
def s123 : LinkedState := ⟨heap123, some 1, some 3, some 3⟩

/-- Chain 1 - 2 - 3 with the cursor on node 2. -/
def s8w : LinkedState := ⟨heap123, some 1, some 3, some 2⟩

/-- The probe conditions that keep a node in play: an Inst node with a
    defined id, SSE family, using at least one XMM register (the negations
    are exactly the three `continue`-and-never-advance branches). -/
def probeEligible (db : InstDB) (nd : CBNode) : Bool :=
  match nd.var with
  | CBNodeVar.inst i =>
    db.isDefinedId i.instId && (db.getInst i.instId).isSseFamily &&
      decide (probeRegs i.opArray i.opCount &&& kProbeXmm ≠ 0)
  | _ => false

/-- The node each of the six round-trip emitter calls appends to a fresh
    (clean, error-free) builder; the statement artefact against which the
    build run and the serializer are compared.  The round-trip law excludes
    embed_const_pool, whose arm is a placeholder. -/
def cmdNode : EmitCmd → CBNode
  | EmitCmd.emitI instId o0 o1 o2 o3 =>
    ⟨CBNodeVar.inst ⟨instId, 0, deriveOpCount o0 o1 o2 o3, 4, [o0, o1, o2, o3], Operand.none⟩,
      instNodeFlags, Option.none⟩
  | EmitCmd.bindL l => ⟨CBNodeVar.label l, labelNodeFlags, Option.none⟩
  | EmitCmd.alignA m a => ⟨CBNodeVar.align m a, alignNodeFlags, Option.none⟩
  | EmitCmd.embedD bytes => ⟨CBNodeVar.data bytes, kFlagIsData, Option.none⟩
  | EmitCmd.embedLabelL l => ⟨CBNodeVar.labelData l, kFlagIsData, Option.none⟩
  | EmitCmd.commentC s => ⟨CBNodeVar.comment, commentNodeFlags, some s⟩
  | EmitCmd.embedConstPoolP _ _ => ⟨CBNodeVar.sentinel, 0, Option.none⟩

/-- The calls serializeStep records for one node. -/
def nodeCalls (nd : CBNode) : List EmitCmd :=
  match nd.var with
  | CBNodeVar.inst i =>
    [EmitCmd.emitI i.instId (i.opArray.getD 0 Operand.none) (i.opArray.getD 1 Operand.none)
      (i.opArray.getD 2 Operand.none) (i.opArray.getD 3 Operand.none)]
  | CBNodeVar.data bytes => [EmitCmd.embedD bytes]
  | CBNodeVar.align m a => [EmitCmd.alignA m a]
  | CBNodeVar.label l => [EmitCmd.bindL l]
  | CBNodeVar.labelData l => [EmitCmd.embedLabelL l]
  | CBNodeVar.constPool l p => [EmitCmd.embedConstPoolP l p]
  | CBNodeVar.comment => [EmitCmd.commentC (nd.inlineComment.getD emptyStr)]
  | CBNodeVar.sentinel => []

/-- The builder states reachable by the six round-trip commands from a
    fresh builder: empty one-shot state, default node-flag template, and
    the cursor parked on the final node. -/
structure Clean (b : CodeBuilder) : Prop where
  options_eq : b.options = 0
  global_eq : b.globalOptions = 0
  comment_eq : b.inlineComment = Option.none
  flags_eq : b.nodeFlags = 0
  cursor_eq : b.cursor = (if b.nodes = [] then Option.none else some (b.nodes.length - 1))

/-- Fixture for the round-trip witness: a code holder with one issued
    label id and a six-command build covering every round-tripped call. -/
def ch5 : CodeHolder := ⟨1⟩

def cs5 : List EmitCmd :=
  [EmitCmd.emitI 7 (Operand.reg 6 0) (Operand.reg 6 1) Operand.none Operand.none,
    EmitCmd.bindL 0,
    EmitCmd.alignA 0 16,
    EmitCmd.embedD [1, 2, 3],
    EmitCmd.embedLabelL 0,
    EmitCmd.commentC hiStr]

/-- Observer: the operand count of an Inst node (0 otherwise). -/
def nodeOpCount (nd : CBNode) : Nat :=
  match nd.var with
  | CBNodeVar.inst i => i.opCount
  | _ => 0

/-- Observer: the instruction id of an Inst node (0 otherwise). -/
def nodeInstId (nd : CBNode) : Nat :=
  match nd.var with
  | CBNodeVar.inst i => i.instId
  | _ => 0

/-! # Theorems -/

/-! ## Helper lemmas for the probe loop's stuck branches -/

theorem probeLoop_undef_stuck :
    ∀ fuel, probeLoop testDb [undefN] fuel 0 [] = Option.none := by
  intro fuel
  induction fuel with
  | zero => rfl
  | succ n ih => exact ih

theorem probeLoop_nonSse_stuck :
    ∀ fuel, probeLoop testDb [nonSseN] fuel 0 [] = Option.none := by
  intro fuel
  induction fuel with
  | zero => rfl
  | succ n ih => exact ih

theorem probeLoop_noXmm_stuck :
    ∀ fuel, probeLoop testDb [noXmmN] fuel 0 [] = Option.none := by
  intro fuel
  induction fuel with
  | zero => rfl
  | succ n ih => exact ih

/-- C1: the claim states the probe phase of X86SseToAvxPass::run terminates
    on every finite node list, visiting each node once, in particular on a
    list containing an Inst node with an undefined id, a non-SSE-family id,
    or no XMM register operand.  The code's probe loop (`continue` at
    x86ssetoavxpass.cpp:52/56/62 skipping the advance at line 97) never
    leaves such a node: for every iteration budget the run is still
    unfinished, on all three failing inputs. -/
theorem sseToAvxRun_diverges_on_skipped_inst :
    (∀ fuel, sseToAvxRun testDb [undefN] fuel = Option.none) ∧
    (∀ fuel, sseToAvxRun testDb [nonSseN] fuel = Option.none) ∧
    (∀ fuel, sseToAvxRun testDb [noXmmN] fuel = Option.none) := by
  refine ⟨fun fuel => ?_, fun fuel => ?_, fun fuel => ?_⟩
  · unfold sseToAvxRun
    rw [probeLoop_undef_stuck]
  · unfold sseToAvxRun
    rw [probeLoop_nonSse_stuck]
  · unfold sseToAvxRun
    rw [probeLoop_noXmm_stuck]

/-- C2: newNamedLabel on a fresh builder attached to a code holder that has
    already issued one id.  The named-label allocator succeeds and issues
    the fresh id 1 (labelsCount goes 1 to 2), yet the call returns a Label
    wrapping 0, the allocated node's stored id stays 0, and the label map
    is left untouched — the registration the claim (and the spec's label
    registration rule) requires never happens. -/
theorem newNamedLabel_drops_fresh_id :
    (newNamedLabel b2 strX 0 0).labelId = 0 ∧
    (newNamedLabel b2 strX 0 0).builder.code.labelsCount = 2 ∧
    (newNamedLabel b2 strX 0 0).nodeId = some 0 ∧
    (newNamedLabel b2 strX 0 0).builder.labels = [] :=
  ⟨rfl, rfl, rfl, rfl⟩

/-- C4: serialize on an empty builder.  The claim states it performs no
    call on dst and returns Ok; the do-while at codebuilder.cpp:591-660
    runs its body once with `node_ == nullptr` and dereferences it, which
    the model returns as `Option.none` instead of any `(Ok, calls)` pair. -/
theorem serialize_empty_crashes : serialize [] initCapture = Option.none := rfl

/-- C9: remove_range on the failing input: list 1 - 2 - 3, removing the
    contiguous range [2, 3] whose `last` is the list's last node.  The
    clearing loop's assertion `ASMJIT_ASSERT(next != nullptr)`
    (codebuilder.cpp:490) is checked on node 3 whose next link is null, so
    the assertion fails — against the claim that every internal assertion
    holds in this case. -/
theorem removeNodes_assert_fails_at_list_end :
    removeNodes s123 2 3 10 = RemResult.assertNextNull := rfl

/-- The uint32 wrap-around of the id sum followed by the 16-bit store is
    the same as reducing the sum mod 2^16 directly. -/
theorem emod_pow32_toNat_mod (x : Int) :
    ((x.emod (2 ^ 32)).toNat) % 65536 = (x.emod 65536).toNat := by
  have he : ∀ a b : Int, a.emod b = a % b := fun _ _ => rfl
  have h : (2 : Int) ^ 32 = 4294967296 := by norm_num
  rw [h, he, he]
  omega

/-- Numeral form of `emod_pow32_toNat_mod` (simp normalises 2^32). -/
theorem emod_num_toNat_mod (x : Int) :
    ((x.emod 4294967296).toNat) % 65536 = (x.emod 65536).toNat := by
  have h : (4294967296 : Int) = 2 ^ 32 := by norm_num
  rw [h, emod_pow32_toNat_mod]

/-- The rewrite of a collected node never changes the instruction id before
    the final setInstId, whatever the conversion mode. -/
theorem patchInst_instId (db : InstDB) (i : CBInst) :
    (patchInst db i).instId =
      ((((i.instId : Int) + (db.getInst i.instId).sseData.avxConvDelta).emod (2 ^ 32)).toNat) % 65536 := by
  unfold patchInst
  cases h : (db.getInst i.instId).sseData.avxConvMode <;>
    simp only [h, CBInst.setInstId] <;> split <;> rfl

/-- C10: CBInst::setInstId truncates through a uint16_t cast, so the
    stored id is the argument mod 2^16; consequently the SSE-to-AVX
    rewrite (which never changes the id before its final setInstId) stores
    (original id + avxConvDelta) mod 65536. -/
theorem setInstId_truncates_mod_65536 :
    (∀ (i : CBInst) (v : Nat), (CBInst.setInstId i v).instId = v % 65536) ∧
    (∀ (db : InstDB) (i : CBInst),
      (patchInst db i).instId =
        (((i.instId : Int) + (db.getInst i.instId).sseData.avxConvDelta).emod 65536).toNat) := by
  constructor
  · intro i v
    rfl
  · intro db i
    rw [patchInst_instId, emod_pow32_toNat_mod]

/-- C3 (amended): with a latched non-Ok error, bind, align, embed,
    embed_label, embed_const_pool and comment return the latched error and
    leave the builder (in particular its node list and cursor) unchanged;
    emit does so whenever at least one special option bit
    (MaybeFailureCase, StrictValidation, Op4, Op5) is in the effective
    options.  (With none of those bits set emit skips the latch check —
    see the counterexample.) -/
theorem latched_error_blocks_emission (b : CodeBuilder) (e : Error)
    (he : b.lastError = e) (hne : e ≠ kErrorOk) :
    (∀ l, bind b l = some (b, e)) ∧
    (∀ m a, align b m a = (b, e)) ∧
    (∀ bytes, embed b bytes = (b, e)) ∧
    (∀ l, embedLabel b l = (b, e)) ∧
    (∀ l p, embedConstPool b l p = some (b, e)) ∧
    (∀ s, comment b s = (b, e)) ∧
    (∀ instId o0 o1 o2 o3,
      (b.options ||| b.globalOptions) &&& kErrorsAndSpecialCases ≠ 0 →
      emit b instId o0 o1 o2 o3 = (b, e)) := by
  have hbe : b.lastError ≠ kErrorOk := by rw [he]; exact hne
  refine ⟨fun l => ?_, fun m a => ?_, fun bytes => ?_, fun l => ?_, fun l p => ?_,
    fun s => ?_, fun instId o0 o1 o2 o3 hopt => ?_⟩
  · simp [bind, he, hne]
  · simp [align, he, hne]
  · simp [embed, he, hne]
  · simp [embedLabel, he, hne]
  · simp [embedConstPool, he, hne]
  · simp [comment, he, hne]
  · simp [emit, hopt, he, hne]

/-- C3 counterexample: the claim as stated also covers emit with none of
    the special option bits in effect.  On the concrete latched builder
    `bErr` (latched NoHeapMemory, empty options and global options — the
    state the spec's "MaybeFailureCase is never set" rule produces), emit
    returns Ok — not the latched error — and appends a node. -/
theorem emit_bypasses_latch_without_special_bits :
    bErr.lastError = kErrorNoHeapMemory ∧
    bErr.options ||| bErr.globalOptions = 0 ∧
    (emit bErr 7 Operand.none Operand.none Operand.none Operand.none).2 = kErrorOk ∧
    (emit bErr 7 Operand.none Operand.none Operand.none Operand.none).1.nodes.length = 1 :=
  ⟨rfl, rfl, rfl, rfl⟩

/-! ## Probe-loop and rewrite lemmas for the SSE-to-AVX pass -/

theorem probeLoop_keeps_acc (db : InstDB) (nodes : List CBNode) :
    ∀ fuel idx acc idxs, probeLoop db nodes fuel idx acc = some (ProbeOut.collected idxs) →
      ∀ x ∈ acc, x ∈ idxs := by
  intro fuel
  induction fuel with
  | zero => intro idx acc idxs h; simp [probeLoop] at h
  | succ n ih =>
    intro idx acc idxs h x hx
    rw [probeLoop] at h
    cases hnd : nodes[idx]? with
    | none =>
      simp only [hnd] at h
      simp only [Option.some.injEq, ProbeOut.collected.injEq] at h
      exact h ▸ hx
    | some nd =>
      simp only [hnd] at h
      cases hv : nd.var with
      | inst i =>
        simp only [hv] at h
        cases hs : probeInstStep db i with
        | skipSame => simp only [hs] at h; exact ih idx acc idxs h x hx
        | abort => simp only [hs] at h; simp at h
        | collect =>
          simp only [hs] at h
          exact ih (idx + 1) (acc ++ [idx]) idxs h x (List.mem_append_left _ hx)
      | data bytes => simp only [hv] at h; exact ih (idx + 1) acc idxs h x hx
      | align m a => simp only [hv] at h; exact ih (idx + 1) acc idxs h x hx
      | label l => simp only [hv] at h; exact ih (idx + 1) acc idxs h x hx
      | labelData l => simp only [hv] at h; exact ih (idx + 1) acc idxs h x hx
      | constPool l p => simp only [hv] at h; exact ih (idx + 1) acc idxs h x hx
      | comment => simp only [hv] at h; exact ih (idx + 1) acc idxs h x hx
      | sentinel => simp only [hv] at h; exact ih (idx + 1) acc idxs h x hx

/-- Completeness of a finished probe: every eligible node at or after the
    current index was collected. -/
theorem probeLoop_collects (db : InstDB) (nodes : List CBNode) :
    ∀ fuel idx acc idxs, probeLoop db nodes fuel idx acc = some (ProbeOut.collected idxs) →
      ∀ k nd, idx ≤ k → nodes[k]? = some nd → probeEligible db nd = true → k ∈ idxs := by
  intro fuel
  induction fuel with
  | zero => intro idx acc idxs h; simp [probeLoop] at h
  | succ n ih =>
    intro idx acc idxs h k nd hik hk helig
    rw [probeLoop] at h
    cases hnd : nodes[idx]? with
    | none =>
      exfalso
      have hlen : nodes.length ≤ idx := List.getElem?_eq_none_iff.mp hnd
      have : nodes[k]? = Option.none :=
        List.getElem?_eq_none_iff.mpr (le_trans hlen hik)
      rw [hk] at this
      exact Option.noConfusion this
    | some ndc =>
      simp only [hnd] at h
      have hadvance : ∀ acc', probeLoop db nodes n (idx + 1) acc' = some (ProbeOut.collected idxs) →
          idx + 1 ≤ k → k ∈ idxs := fun acc' h' hik' => ih (idx + 1) acc' idxs h' k nd hik' hk helig
      cases hv : ndc.var with
      | inst i =>
        simp only [hv] at h
        cases hs : probeInstStep db i with
        | skipSame => simp only [hs] at h; exact ih idx acc idxs h k nd hik hk helig
        | abort => simp only [hs] at h; simp at h
        | collect =>
          simp only [hs] at h
          rcases Nat.eq_or_lt_of_le hik with heq | hlt
          · subst heq
            exact probeLoop_keeps_acc db nodes n (idx + 1) (acc ++ [idx]) idxs h idx
              (List.mem_append_right _ (List.mem_singleton_self idx))
          · exact hadvance (acc ++ [idx]) h hlt
      | data bytes =>
        simp only [hv] at h
        rcases Nat.eq_or_lt_of_le hik with heq | hlt
        · exfalso; subst heq
          rw [hk] at hnd
          cases hnd
          rw [probeEligible, hv] at helig
          exact Bool.noConfusion helig
        · exact hadvance acc h hlt
      | align m a =>
        simp only [hv] at h
        rcases Nat.eq_or_lt_of_le hik with heq | hlt
        · exfalso; subst heq
          rw [hk] at hnd
          cases hnd
          rw [probeEligible, hv] at helig
          exact Bool.noConfusion helig
        · exact hadvance acc h hlt
      | label l =>
        simp only [hv] at h
        rcases Nat.eq_or_lt_of_le hik with heq | hlt
        · exfalso; subst heq
          rw [hk] at hnd
          cases hnd
          rw [probeEligible, hv] at helig
          exact Bool.noConfusion helig
        · exact hadvance acc h hlt
      | labelData l =>
        simp only [hv] at h
        rcases Nat.eq_or_lt_of_le hik with heq | hlt
        · exfalso; subst heq
          rw [hk] at hnd
          cases hnd
          rw [probeEligible, hv] at helig
          exact Bool.noConfusion helig
        · exact hadvance acc h hlt
      | constPool l p =>
        simp only [hv] at h
        rcases Nat.eq_or_lt_of_le hik with heq | hlt
        · exfalso; subst heq
          rw [hk] at hnd
          cases hnd
          rw [probeEligible, hv] at helig
          exact Bool.noConfusion helig
        · exact hadvance acc h hlt
      | comment =>
        simp only [hv] at h
        rcases Nat.eq_or_lt_of_le hik with heq | hlt
        · exfalso; subst heq
          rw [hk] at hnd
          cases hnd
          rw [probeEligible, hv] at helig
          exact Bool.noConfusion helig
        · exact hadvance acc h hlt
      | sentinel =>
        simp only [hv] at h
        rcases Nat.eq_or_lt_of_le hik with heq | hlt
        · exfalso; subst heq
          rw [hk] at hnd
          cases hnd
          rw [probeEligible, hv] at helig
          exact Bool.noConfusion helig
        · exact hadvance acc h hlt

/-- The collected index list of a finished probe has no duplicates. -/
theorem probeLoop_nodup (db : InstDB) (nodes : List CBNode) :
    ∀ fuel idx acc idxs, (∀ x ∈ acc, x < idx) → acc.Nodup →
      probeLoop db nodes fuel idx acc = some (ProbeOut.collected idxs) → idxs.Nodup := by
  intro fuel
  induction fuel with
  | zero => intro idx acc idxs _ _ h; simp [probeLoop] at h
  | succ n ih =>
    intro idx acc idxs hbound hnd h
    rw [probeLoop] at h
    cases hget : nodes[idx]? with
    | none =>
      simp only [hget] at h
      simp only [Option.some.injEq, ProbeOut.collected.injEq] at h
      exact h ▸ hnd
    | some ndc =>
      simp only [hget] at h
      have hb1 : ∀ x ∈ acc, x < idx + 1 := fun x hx => Nat.lt_succ_of_lt (hbound x hx)
      have hb2 : ∀ x ∈ acc ++ [idx], x < idx + 1 := by
        intro x hx
        rcases List.mem_append.mp hx with hx | hx
        · exact Nat.lt_succ_of_lt (hbound x hx)
        · rw [List.mem_singleton.mp hx]; exact Nat.lt_succ_self idx
      have hnd2 : (acc ++ [idx]).Nodup := by
        rw [List.nodup_append]
        refine ⟨hnd, List.nodup_singleton idx, ?_⟩
        intro x hx hmem
        rw [List.mem_singleton.mp hmem] at hx
        exact absurd (hbound idx hx) (Nat.lt_irrefl idx)
      cases hv : ndc.var with
      | inst i =>
        simp only [hv] at h
        cases hs : probeInstStep db i with
        | skipSame => simp only [hs] at h; exact ih idx acc idxs hbound hnd h
        | abort => simp only [hs] at h; simp at h
        | collect => simp only [hs] at h; exact ih (idx + 1) (acc ++ [idx]) idxs hb2 hnd2 h
      | data bytes => simp only [hv] at h; exact ih (idx + 1) acc idxs hb1 hnd h
      | align m a => simp only [hv] at h; exact ih (idx + 1) acc idxs hb1 hnd h
      | label l => simp only [hv] at h; exact ih (idx + 1) acc idxs hb1 hnd h
      | labelData l => simp only [hv] at h; exact ih (idx + 1) acc idxs hb1 hnd h
      | constPool l p => simp only [hv] at h; exact ih (idx + 1) acc idxs hb1 hnd h
      | comment => simp only [hv] at h; exact ih (idx + 1) acc idxs hb1 hnd h
      | sentinel => simp only [hv] at h; exact ih (idx + 1) acc idxs hb1 hnd h

theorem listModify_getElem_same (l : List CBNode) (k : Nat) (f : CBNode → CBNode) :
    (listModify l k f)[k]? = (l[k]?).map f := by
  unfold listModify
  cases hl : l[k]? with
  | none => simp [hl]
  | some x =>
    have hk : k < l.length := by
      by_contra hge
      rw [List.getElem?_eq_none_iff.mpr (Nat.le_of_not_lt hge)] at hl
      exact Option.noConfusion hl
    simp [List.getElem?_set_self hk, hl]

theorem listModify_getElem_ne (l : List CBNode) (k j : Nat) (f : CBNode → CBNode)
    (h : k ≠ j) : (listModify l k f)[j]? = l[j]? := by
  unfold listModify
  cases hl : l[k]? with
  | none => rfl
  | some x => simp [List.getElem?_set_ne h]

theorem rewriteAll_getElem (db : InstDB) :
    ∀ (idxs : List Nat) (nodes : List CBNode) (k : Nat), idxs.Nodup →
      (rewriteAll db nodes idxs)[k]? =
        (if k ∈ idxs then (nodes[k]?).map (patchNode db) else nodes[k]?) := by
  intro idxs
  induction idxs with
  | nil => intro nodes k _; simp [rewriteAll]
  | cons j rest ih =>
    intro nodes k hnd
    have hstep : rewriteAll db nodes (j :: rest) = rewriteAll db (listModify nodes j (patchNode db)) rest := rfl
    rw [hstep, ih _ k (List.Nodup.of_cons hnd)]
    by_cases hkj : k = j
    · subst hkj
      have hknr : k ∉ rest := (List.nodup_cons.mp hnd).1
      simp [hknr, listModify_getElem_same]
    · have hne : j ≠ k := fun hh => hkj hh.symm
      by_cases hkr : k ∈ rest
      · simp [hkr, List.mem_cons, hkj, listModify_getElem_ne nodes j k _ hne]
      · simp [hkr, List.mem_cons, hkj, listModify_getElem_ne nodes j k _ hne]

/-- C6 (amended): a Blend-convertible two-XMM-operand Inst node in a list
    on which the pass returns Ok having completed its rewrite phase
    (translated set) is rewritten to operand count 4 with operands
    xmm1, xmm1, xmm2, xmm0 and id (original + delta) mod 2^16.  (The
    original claim lacks the completion condition and the 16-bit
    truncation; see the counterexample for the former.) -/
theorem blend_rewrite (db : InstDB) (nodes : List CBNode) (k fuel : Nat)
    (flags : Nat) (ic : Option String) (i : CBInst) (ai bi : Nat) (o2 o3 : Operand)
    (res : RunResult)
    (hk : nodes[k]? = some ⟨CBNodeVar.inst i, flags, ic⟩)
    (hdef : db.isDefinedId i.instId = true)
    (hsse : (db.getInst i.instId).isSseFamily = true)
    (hmode : (db.getInst i.instId).sseData.avxConvMode = AvxConvMode.kAvxConvBlend)
    (hcnt : i.opCount = 2)
    (hops : i.opArray = [Operand.reg kRegXmm ai, Operand.reg kRegXmm bi, o2, o3])
    (hrun : sseToAvxRun db nodes fuel = some res)
    (hok : res.err = kErrorOk)
    (htr : res.translated = true) :
    res.nodes[k]? = some ⟨CBNodeVar.inst
      ⟨(((i.instId : Int) + (db.getInst i.instId).sseData.avxConvDelta).emod 65536).toNat,
        i.options, 4, i.opCapacity,
        [Operand.reg kRegXmm ai, Operand.reg kRegXmm ai, Operand.reg kRegXmm bi, xmm0],
        i.opExtra⟩, flags, ic⟩ := by
  have helig : probeEligible db (⟨CBNodeVar.inst i, flags, ic⟩ : CBNode) = true := by
    simp only [probeEligible]
    rw [hops, hcnt]
    simp [hdef, hsse, probeRegs, kProbeXmm, kRegXmm]
  unfold sseToAvxRun at hrun
  cases hp : probeLoop db nodes fuel 0 [] with
  | none => rw [hp] at hrun; exact Option.noConfusion hrun
  | some po =>
    rw [hp] at hrun
    cases po with
    | abortOk =>
      exfalso
      simp only [Option.some.injEq] at hrun
      rw [← hrun] at htr
      exact Bool.noConfusion htr
    | collected idxs =>
      simp only [Option.some.injEq] at hrun
      have hmem : k ∈ idxs :=
        probeLoop_collects db nodes fuel 0 [] idxs hp k _ (Nat.zero_le k) hk helig
      have hnodup : idxs.Nodup :=
        probeLoop_nodup db nodes fuel 0 [] idxs (by simp) List.nodup_nil hp
      have hres : res.nodes = rewriteAll db nodes idxs := by rw [← hrun]
      rw [hres, rewriteAll_getElem db idxs nodes k hnodup, if_pos hmem, hk]
      have hpatch : patchInst db i =
          ⟨(((i.instId : Int) + (db.getInst i.instId).sseData.avxConvDelta).emod 65536).toNat,
            i.options, 4, i.opCapacity,
            [Operand.reg kRegXmm ai, Operand.reg kRegXmm ai, Operand.reg kRegXmm bi, xmm0],
            i.opExtra⟩ := by
        unfold patchInst
        simp only [hmode, hcnt, hops]
        simp [extendLoop, CBInst.setInstId, emod_pow32_toNat_mod, emod_num_toNat_mod]
      have hmap : Option.map (patchNode db) (some (⟨CBNodeVar.inst i, flags, ic⟩ : CBNode)) =
          some (patchNode db ⟨CBNodeVar.inst i, flags, ic⟩) := rfl
      rw [hmap]
      simp only [patchNode]
      rw [hpatch]

/-- C7 (amended): an Extend-convertible two-XMM-operand Inst node in a
    list on which the pass returns Ok having completed its rewrite phase
    is rewritten to operand count 3 with op0 duplicated as destination and
    id (original + delta) mod 2^16.  (Same two amendments as for the Blend
    case.) -/
theorem extend_rewrite (db : InstDB) (nodes : List CBNode) (k fuel : Nat)
    (flags : Nat) (ic : Option String) (i : CBInst) (ai bi : Nat) (o2 o3 : Operand)
    (res : RunResult)
    (hk : nodes[k]? = some ⟨CBNodeVar.inst i, flags, ic⟩)
    (hdef : db.isDefinedId i.instId = true)
    (hsse : (db.getInst i.instId).isSseFamily = true)
    (hmode : (db.getInst i.instId).sseData.avxConvMode = AvxConvMode.kAvxConvExtend)
    (hcnt : i.opCount = 2)
    (hops : i.opArray = [Operand.reg kRegXmm ai, Operand.reg kRegXmm bi, o2, o3])
    (hrun : sseToAvxRun db nodes fuel = some res)
    (hok : res.err = kErrorOk)
    (htr : res.translated = true) :
    res.nodes[k]? = some ⟨CBNodeVar.inst
      ⟨(((i.instId : Int) + (db.getInst i.instId).sseData.avxConvDelta).emod 65536).toNat,
        i.options, 3, i.opCapacity,
        [Operand.reg kRegXmm ai, Operand.reg kRegXmm ai, Operand.reg kRegXmm bi, o3],
        i.opExtra⟩, flags, ic⟩ := by
  have helig : probeEligible db (⟨CBNodeVar.inst i, flags, ic⟩ : CBNode) = true := by
    simp only [probeEligible]
    rw [hops, hcnt]
    simp [hdef, hsse, probeRegs, kProbeXmm, kRegXmm]
  unfold sseToAvxRun at hrun
  cases hp : probeLoop db nodes fuel 0 [] with
  | none => rw [hp] at hrun; exact Option.noConfusion hrun
  | some po =>
    rw [hp] at hrun
    cases po with
    | abortOk =>
      exfalso
      simp only [Option.some.injEq] at hrun
      rw [← hrun] at htr
      exact Bool.noConfusion htr
    | collected idxs =>
      simp only [Option.some.injEq] at hrun
      have hmem : k ∈ idxs :=
        probeLoop_collects db nodes fuel 0 [] idxs hp k _ (Nat.zero_le k) hk helig
      have hnodup : idxs.Nodup :=
        probeLoop_nodup db nodes fuel 0 [] idxs (by simp) List.nodup_nil hp
      have hres : res.nodes = rewriteAll db nodes idxs := by rw [← hrun]
      rw [hres, rewriteAll_getElem db idxs nodes k hnodup, if_pos hmem, hk]
      have hpatch : patchInst db i =
          ⟨(((i.instId : Int) + (db.getInst i.instId).sseData.avxConvDelta).emod 65536).toNat,
            i.options, 3, i.opCapacity,
            [Operand.reg kRegXmm ai, Operand.reg kRegXmm ai, Operand.reg kRegXmm bi, o3],
            i.opExtra⟩ := by
        unfold patchInst
        simp only [hmode, hcnt, hops]
        simp [extendLoop, CBInst.setInstId, emod_pow32_toNat_mod, emod_num_toNat_mod]
      have hmap : Option.map (patchNode db) (some (⟨CBNodeVar.inst i, flags, ic⟩ : CBNode)) =
          some (patchNode db ⟨CBNodeVar.inst i, flags, ic⟩) := rfl
      rw [hmap]
      simp only [patchNode]
      rw [hpatch]

/-- C6 counterexample: the claim as stated.  The list `[blendN, mmxN]`
    contains the qualifying Blend node `blendN` (defined id, SSE family,
    two XMM operands, Blend mode), the pass returns Ok — but it aborted on
    the MMX-mixing second node, so `blendN` keeps its two operands instead
    of the claimed four. -/
theorem blend_claim_fails_on_abort :
    sseToAvxRun testDb cexBlendList 10 = some ⟨kErrorOk, cexBlendList, false⟩ ∧
    cexBlendList[0]? = some blendN ∧
    probeEligible testDb blendN = true ∧
    (testDb.getInst (nodeInstId blendN)).sseData.avxConvMode = AvxConvMode.kAvxConvBlend ∧
    nodeOpCount blendN = 2 := by
  refine ⟨by decide, by decide, by decide, by decide, by decide⟩

/-- C7 counterexample: same shape as the Blend one, with the
    Extend-convertible node `extendN`: the pass returns Ok after aborting
    on the MMX-mixing node, leaving `extendN` at two operands instead of
    the claimed three. -/
theorem extend_claim_fails_on_abort :
    sseToAvxRun testDb cexExtendList 10 = some ⟨kErrorOk, cexExtendList, false⟩ ∧
    cexExtendList[0]? = some extendN ∧
    probeEligible testDb extendN = true ∧
    (testDb.getInst (nodeInstId extendN)).sseData.avxConvMode = AvxConvMode.kAvxConvExtend ∧
    nodeOpCount extendN = 2 := by
  refine ⟨by decide, by decide, by decide, by decide, by decide⟩

theorem blend_rewrite_witness :
    ∃ res, sseToAvxRun testDb [blendN] 10 = some res ∧
      res.nodes[0]? = some ⟨CBNodeVar.inst
        ⟨((((100 : Nat) : Int) + (testDb.getInst 100).sseData.avxConvDelta).emod 65536).toNat,
          0, 4, 4,
          [Operand.reg kRegXmm 1, Operand.reg kRegXmm 1, Operand.reg kRegXmm 2, xmm0],
          Operand.none⟩, instNodeFlags, Option.none⟩ := by
  refine ⟨_, rfl, ?_⟩
  exact blend_rewrite testDb [blendN] 0 10 instNodeFlags Option.none _ 1 2
    Operand.none Operand.none _ rfl rfl rfl rfl rfl rfl rfl rfl rfl

theorem extend_rewrite_witness :
    ∃ res, sseToAvxRun testDb [extendN] 10 = some res ∧
      res.nodes[0]? = some ⟨CBNodeVar.inst
        ⟨((((200 : Nat) : Int) + (testDb.getInst 200).sseData.avxConvDelta).emod 65536).toNat,
          0, 3, 4,
          [Operand.reg kRegXmm 0, Operand.reg kRegXmm 0, Operand.reg kRegXmm 1, Operand.none],
          Operand.none⟩, instNodeFlags, Option.none⟩ := by
  refine ⟨_, rfl, ?_⟩
  exact extend_rewrite testDb [extendN] 0 10 instNodeFlags Option.none _ 0 1
    Operand.none Operand.none _ rfl rfl rfl rfl rfl rfl rfl rfl rfl

/-! ## Round-trip lemmas: building then serializing -/

theorem deriveOpCount_le_four (o0 o1 o2 o3 : Operand) : deriveOpCount o0 o1 o2 o3 ≤ 4 := by
  unfold deriveOpCount
  split_ifs <;> omega

theorem addNode_lastError (b : CodeBuilder) (nd : CBNode) :
    (addNode b nd).lastError = b.lastError := by
  unfold addNode
  split
  · split <;> rfl
  · rfl

theorem emitCont_lastError (b : CodeBuilder) (instId : Nat) (o0 o1 o2 o3 : Operand)
    (options opCount : Nat) (ic : Option String) :
    ((emitCont b instId o0 o1 o2 o3 options opCount ic).1).lastError = b.lastError := by
  unfold emitCont
  rw [addNode_lastError]

theorem applyCmd_sticky (b b' : CodeBuilder) (c : EmitCmd)
    (he : b.lastError ≠ kErrorOk) (h : applyCmd b c = some b') :
    b'.lastError = b.lastError := by
  cases c with
  | emitI instId o0 o1 o2 o3 =>
    simp only [applyCmd, Option.some.injEq] at h
    subst h
    unfold emit
    dsimp only
    by_cases hsp : (b.options ||| b.globalOptions) &&& kErrorsAndSpecialCases ≠ 0
    · rw [if_pos hsp, if_pos he]
    · rw [if_neg hsp]
      exact emitCont_lastError b instId o0 o1 o2 o3 _ _ _
  | bindL l =>
    simp only [applyCmd] at h
    unfold bind at h
    rw [if_pos he] at h
    simp only [Option.map_some', Option.some.injEq] at h
    subst h
    rfl
  | alignA m a =>
    simp only [applyCmd, Option.some.injEq] at h
    subst h
    unfold align
    rw [if_pos he]
  | embedD bytes =>
    simp only [applyCmd, Option.some.injEq] at h
    subst h
    unfold embed
    rw [if_pos he]
  | embedLabelL l =>
    simp only [applyCmd, Option.some.injEq] at h
    subst h
    unfold embedLabel
    rw [if_pos he]
  | commentC s =>
    simp only [applyCmd, Option.some.injEq] at h
    subst h
    unfold comment
    rw [if_pos he]
  | embedConstPoolP l p =>
    simp only [applyCmd] at h
    unfold embedConstPool at h
    rw [if_pos he] at h
    simp only [Option.map_some', Option.some.injEq] at h
    subst h
    rfl

theorem buildRun_sticky (cs : List EmitCmd) : ∀ b b', b.lastError ≠ kErrorOk →
    buildRun b cs = some b' → b'.lastError = b.lastError := by
  induction cs with
  | nil =>
    intro b b' _ h
    simp only [buildRun, Option.some.injEq] at h
    subst h
    rfl
  | cons c cs ih =>
    intro b b' he h
    rw [buildRun] at h
    cases happ : applyCmd b c with
    | none => rw [happ] at h; exact Option.noConfusion h
    | some b1 =>
      rw [happ] at h
      have h1 : b1.lastError = b.lastError := applyCmd_sticky b b1 c he happ
      have h2 : b'.lastError = b1.lastError := ih b1 b' (h1 ▸ he) h
      rw [h2, h1]

/-- On a builder with the cursor parked at the end of the list, addNode
    appends and advances the cursor to the new last node. -/
theorem addNode_clean (b : CodeBuilder) (nd : CBNode)
    (hc : b.cursor = (if b.nodes = [] then Option.none else some (b.nodes.length - 1))) :
    addNode b nd = { b with nodes := b.nodes ++ [nd], cursor := some b.nodes.length } := by
  by_cases hn : b.nodes = []
  · have hc2 : b.cursor = Option.none := by rw [hc, hn]; rfl
    unfold addNode
    rw [hc2, hn]
    rfl
  · rw [if_neg hn] at hc
    unfold addNode
    rw [hc]
    dsimp only
    have h1 : b.nodes.length - 1 + 1 = b.nodes.length :=
      Nat.succ_pred_eq_of_pos (List.length_pos.mpr hn)
    rw [h1, List.insertIdx_length_self]

theorem emit_clean (b : CodeBuilder) (instId : Nat) (o0 o1 o2 o3 : Operand)
    (ho : b.options = 0) (hg : b.globalOptions = 0) (hic : b.inlineComment = Option.none)
    (hnf : b.nodeFlags = 0) :
    emit b instId o0 o1 o2 o3 =
      (addNode { b with options := 0, inlineComment := Option.none }
        (cmdNode (EmitCmd.emitI instId o0 o1 o2 o3)), kErrorOk) := by
  have hle : deriveOpCount o0 o1 o2 o3 ≤ 4 := deriveOpCount_le_four o0 o1 o2 o3
  unfold emit emitCont
  rw [ho, hg, hic, hnf]
  simp [capacityOfOpCount, kBaseOpCapacity, hle, cmdNode, kErrorsAndSpecialCases,
    kOptionMaybeFailureCase, kOptionStrictValidation, kOptionOp4, kOptionOp5, kOptionOpExtra,
    instNodeFlags]

/-- One successful command on a clean error-free builder: the state stays
    clean, and either the command appended exactly its node with the
    latch still clear, or it latched an error and appended nothing. -/
theorem applyCmd_clean_step (b b' : CodeBuilder) (c : EmitCmd)
    (hcl : Clean b) (he : b.lastError = kErrorOk) (hcp : c.isConstPoolCmd = false)
    (h : applyCmd b c = some b') :
    Clean b' ∧ ((b'.lastError = kErrorOk ∧ b'.nodes = b.nodes ++ [cmdNode c]) ∨
      (b'.lastError ≠ kErrorOk ∧ b'.nodes = b.nodes)) := by
  obtain ⟨ho, hg, hic, hnf, hcur⟩ := hcl
  have hnot : ¬ (b.lastError ≠ kErrorOk) := by rw [he]; exact fun hh => hh rfl
  cases c with
  | emitI instId o0 o1 o2 o3 =>
    simp only [applyCmd, Option.some.injEq] at h
    subst h
    rw [emit_clean b instId o0 o1 o2 o3 ho hg hic hnf]
    rw [addNode_clean { b with options := 0, inlineComment := Option.none }
      (cmdNode (EmitCmd.emitI instId o0 o1 o2 o3)) hcur]
    refine ⟨⟨rfl, hg, rfl, hnf, ?_⟩, Or.inl ⟨he, rfl⟩⟩
    simp
  | bindL l =>
    simp only [applyCmd] at h
    unfold bind at h
    rw [if_neg hnot] at h
    by_cases hval : b.code.labelsCount ≤ l
    · rw [if_pos hval] at h
      simp only [setLastError, Option.map_some', Option.some.injEq] at h
      subst h
      refine ⟨⟨ho, hg, hic, hnf, hcur⟩,
        Or.inr ⟨(by decide : kErrorInvalidLabel ≠ kErrorOk), rfl⟩⟩
    · rw [if_neg hval] at h
      dsimp only at h
      by_cases hcach : (b.labels.getD l Option.none).isSome
      · rw [if_pos hcach] at h
        by_cases hlk : l ∈ b.linkedLabels
        · rw [if_pos hlk] at h
          exact Option.noConfusion h
        · rw [if_neg hlk] at h
          simp only [Option.map_some', Option.some.injEq] at h
          subst h
          rw [addNode_clean b _ hcur]
          refine ⟨⟨ho, hg, hic, hnf, ?_⟩, Or.inl ⟨he, ?_⟩⟩
          · simp
          · simp [cmdNode, hnf]
      · rw [if_neg hcach] at h
        by_cases hlk : l ∈ b.linkedLabels
        · rw [if_pos hlk] at h
          exact Option.noConfusion h
        · rw [if_neg hlk] at h
          simp only [Option.map_some', Option.some.injEq] at h
          subst h
          rw [addNode_clean { b with labels := (padTo b.labels (l + 1)).set l (some l) } _ hcur]
          refine ⟨⟨ho, hg, hic, hnf, ?_⟩, Or.inl ⟨he, ?_⟩⟩
          · simp
          · simp [cmdNode, hnf]
  | alignA m a =>
    simp only [applyCmd, Option.some.injEq] at h
    subst h
    unfold align
    rw [if_neg hnot]
    dsimp only
    rw [addNode_clean b _ hcur]
    refine ⟨⟨ho, hg, hic, hnf, ?_⟩, Or.inl ⟨he, ?_⟩⟩
    · simp
    · simp [cmdNode, hnf]
  | embedD bytes =>
    simp only [applyCmd, Option.some.injEq] at h
    subst h
    unfold embed
    rw [if_neg hnot]
    dsimp only
    rw [addNode_clean b _ hcur]
    refine ⟨⟨ho, hg, hic, hnf, ?_⟩, Or.inl ⟨he, ?_⟩⟩
    · simp
    · simp [cmdNode, hnf]
  | embedLabelL l =>
    simp only [applyCmd, Option.some.injEq] at h
    subst h
    unfold embedLabel
    rw [if_neg hnot]
    dsimp only
    rw [addNode_clean b _ hcur]
    refine ⟨⟨ho, hg, hic, hnf, ?_⟩, Or.inl ⟨he, ?_⟩⟩
    · simp
    · simp [cmdNode, hnf]
  | commentC s =>
    simp only [applyCmd, Option.some.injEq] at h
    subst h
    unfold comment
    rw [if_neg hnot]
    dsimp only
    rw [addNode_clean b _ hcur]
    refine ⟨⟨ho, hg, hic, hnf, ?_⟩, Or.inl ⟨he, ?_⟩⟩
    · simp
    · simp [cmdNode, hnf]
  | embedConstPoolP l p => simp [EmitCmd.isConstPoolCmd] at hcp

theorem buildRun_clean (cs : List EmitCmd) : ∀ b b', Clean b → b.lastError = kErrorOk →
    (∀ c ∈ cs, c.isConstPoolCmd = false) → buildRun b cs = some b' →
    b'.lastError = kErrorOk → b'.nodes = b.nodes ++ cs.map cmdNode := by
  induction cs with
  | nil =>
    intro b b' _ _ _ h _
    simp only [buildRun, Option.some.injEq] at h
    subst h
    simp
  | cons c cs ih =>
    intro b b' hcl he hnc h hfin
    rw [buildRun] at h
    cases happ : applyCmd b c with
    | none => rw [happ] at h; exact Option.noConfusion h
    | some b1 =>
      rw [happ] at h
      obtain ⟨hcl1, hout⟩ :=
        applyCmd_clean_step b b1 c hcl he (hnc c (List.mem_cons_self c cs)) happ
      rcases hout with ⟨he1, hn1⟩ | ⟨he1, _⟩
      · have := ih b1 b' hcl1 he1 (fun d hd => hnc d (List.mem_cons_of_mem c hd)) h hfin
        rw [this, hn1]
        simp
      · exfalso
        have := buildRun_sticky cs b1 b' he1 h
        rw [this] at hfin
        exact he1 hfin

theorem serializeStep_calls (c : Capture) (nd : CBNode) :
    (serializeStep c nd).calls = c.calls ++ nodeCalls nd := by
  unfold serializeStep nodeCalls
  cases hv : nd.var with
  | inst i =>
    dsimp only
    split
    · split <;> rfl
    · rfl
  | data bytes => rfl
  | align m a => rfl
  | label l => rfl
  | labelData l => rfl
  | constPool l p => rfl
  | comment => rfl
  | sentinel => simp

theorem serialize_foldl_calls : ∀ (ns : List CBNode) (c : Capture),
    (ns.foldl serializeStep c).calls = c.calls ++ (ns.map nodeCalls).flatten := by
  intro ns
  induction ns with
  | nil => intro c; simp
  | cons n t ih =>
    intro c
    rw [List.foldl_cons, ih (serializeStep c n), serializeStep_calls]
    simp

theorem nodeCalls_cmdNode (c : EmitCmd) (hc : c.isConstPoolCmd = false) :
    nodeCalls (cmdNode c) = [c] := by
  cases c with
  | emitI instId o0 o1 o2 o3 => rfl
  | bindL l => rfl
  | alignA m a => rfl
  | embedD bytes => rfl
  | embedLabelL l => rfl
  | commentC s => rfl
  | embedConstPoolP l p => simp [EmitCmd.isConstPoolCmd] at hc

theorem flatten_nodeCalls (cs : List EmitCmd) (hnc : ∀ c ∈ cs, c.isConstPoolCmd = false) :
    ((cs.map cmdNode).map nodeCalls).flatten = cs := by
  induction cs with
  | nil => rfl
  | cons c t ih =>
    simp only [List.map_cons, List.flatten_cons]
    rw [nodeCalls_cmdNode c (hnc c (List.mem_cons_self c t)),
      ih (fun d hd => hnc d (List.mem_cons_of_mem c hd))]
    rfl

/-- C5 (amended): a nonempty sequence of successful builder emissions
    drawn from emit, bind, align, embed, embed_label and comment, built on
    a fresh builder with no passes run, serializes into a capturing
    emitter as exactly the original ordered call sequence with the same
    arguments.  (The original claim also covers the empty sequence, on
    which serialize dereferences the null first node — see the
    counterexample and C4.) -/
theorem serialize_roundtrip (ch : CodeHolder) (cs : List EmitCmd) (b : CodeBuilder)
    (hnc : ∀ c ∈ cs, c.isConstPoolCmd = false)
    (hne : cs ≠ [])
    (hrun : buildRun (initBuilder ch) cs = some b)
    (hok : b.lastError = kErrorOk) :
    ∃ cap, serialize b.nodes initCapture = some (kErrorOk, cap) ∧ cap.calls = cs := by
  have hcl : Clean (initBuilder ch) := ⟨rfl, rfl, rfl, rfl, rfl⟩
  have hnodes : b.nodes = cs.map cmdNode := by
    have h := buildRun_clean cs (initBuilder ch) b hcl rfl hnc hrun hok
    simpa [initBuilder] using h
  cases hcs : cs.map cmdNode with
  | nil =>
    exfalso
    exact hne (List.map_eq_nil_iff.mp hcs)
  | cons x xs =>
    rw [hnodes, hcs]
    refine ⟨(x :: xs).foldl serializeStep initCapture, rfl, ?_⟩
    rw [serialize_foldl_calls, ← hcs, flatten_nodeCalls cs hnc]
    rfl

/-- C5 counterexample: the empty emission sequence is a sequence of
    successful emissions, but serialize on the resulting (empty) builder
    returns no call record at all — the do-while dereferences the null
    first node — rather than the empty call sequence with Ok. -/
theorem roundtrip_fails_on_empty :
    buildRun (initBuilder ch5) [] = some (initBuilder ch5) ∧
    (initBuilder ch5).lastError = kErrorOk ∧
    serialize (initBuilder ch5).nodes initCapture = Option.none :=
  ⟨rfl, rfl, rfl⟩

theorem serialize_roundtrip_witness :
    ∃ b, buildRun (initBuilder ch5) cs5 = some b ∧ b.lastError = kErrorOk ∧
      ∃ cap, serialize b.nodes initCapture = some (kErrorOk, cap) ∧ cap.calls = cs5 := by
  refine ⟨_, rfl, rfl, ?_⟩
  exact serialize_roundtrip ch5 cs5 _ (by decide) (by decide) rfl rfl

/-! ## Link-level lemmas for removeNode -/

theorem hSetNext_prev (h : Nat → Link) (i : Nat) (v : Option Nat) (j : Nat) :
    (hSetNext h i v j).prev = (h j).prev := by
  unfold hSetNext
  split
  · next hji => subst hji; rfl
  · rfl

theorem hSetNext_next_self (h : Nat → Link) (i : Nat) (v : Option Nat) :
    (hSetNext h i v i).next = v := by
  unfold hSetNext
  rw [if_pos rfl]

theorem hSetNext_next_ne (h : Nat → Link) (i : Nat) (v : Option Nat) (j : Nat)
    (hj : j ≠ i) : (hSetNext h i v j).next = (h j).next := by
  unfold hSetNext
  rw [if_neg hj]

theorem hSetPrev_next (h : Nat → Link) (i : Nat) (v : Option Nat) (j : Nat) :
    (hSetPrev h i v j).next = (h j).next := by
  unfold hSetPrev
  split
  · next hji => subst hji; rfl
  · rfl

theorem hSetPrev_prev_self (h : Nat → Link) (i : Nat) (v : Option Nat) :
    (hSetPrev h i v i).prev = v := by
  unfold hSetPrev
  rw [if_pos rfl]

theorem hSetPrev_prev_ne (h : Nat → Link) (i : Nat) (v : Option Nat) (j : Nat)
    (hj : j ≠ i) : (hSetPrev h i v j).prev = (h j).prev := by
  unfold hSetPrev
  rw [if_neg hj]

theorem hClear_self (h : Nat → Link) (i : Nat) :
    hClear h i i = ⟨Option.none, Option.none⟩ := by
  unfold hClear
  rw [if_pos rfl]

theorem hClear_ne (h : Nat → Link) (i j : Nat) (hj : j ≠ i) : hClear h i j = h j := by
  unfold hClear
  rw [if_neg hj]

/-- The chain relation transfers to an updated heap as long as the update
    preserves every realised adjacency within the list. -/
theorem chain'_rel_congr (h h' : Nat → Link) :
    ∀ (l : List Nat), (∀ x ∈ l, ∀ y ∈ l, rel h x y → rel h' x y) →
      List.Chain' (rel h) l → List.Chain' (rel h') l := by
  intro l
  induction l with
  | nil => intro _ _; exact List.chain'_nil
  | cons a t ih =>
    intro hag hch
    rw [List.chain'_cons'] at hch ⊢
    refine ⟨?_, ih (fun x hx y hy hr =>
      hag x (List.mem_cons_of_mem a hx) y (List.mem_cons_of_mem a hy) hr) hch.2⟩
    intro y hy
    exact hag a (List.mem_cons_self a t) y
      (List.mem_cons_of_mem a (List.mem_of_mem_head? hy)) (hch.1 y hy)

/-- C8: CodeBuilder::removeNode on any node currently in the list (the
    list being the chain l1 ++ n :: l2): the call succeeds (no null
    dereference), the removed node's links are both null, the cursor
    retreats to the removed node's former predecessor exactly when it
    pointed at it, and the remaining chain l1 ++ l2 is well-formed with
    first/last updated. -/
theorem removeNode_correct (s : LinkedState) (l1 l2 : List Nat) (n : Nat)
    (hwf : Wf s (l1 ++ n :: l2)) :
    ∃ s', removeNode s n = some s' ∧
      (s'.heap n).prev = Option.none ∧ (s'.heap n).next = Option.none ∧
      (s.cursor = some n → s'.cursor = (s.heap n).prev) ∧
      (s.cursor ≠ some n → s'.cursor = s.cursor) ∧
      Wf s' (l1 ++ l2) := by
  obtain ⟨hnd, hfe, hle, hhp, hln, hch⟩ := hwf
  rw [List.nodup_append] at hnd
  obtain ⟨hnd1, hnd2c, hdisj⟩ := hnd
  rw [List.nodup_cons] at hnd2c
  obtain ⟨hn2, hnd2⟩ := hnd2c
  have hn1 : n ∉ l1 := fun hmem => hdisj hmem (List.mem_cons_self n l2)
  rw [List.chain'_append] at hch
  obtain ⟨hc1, hc2c, hmid⟩ := hch
  rw [List.chain'_cons'] at hc2c
  obtain ⟨hnq, hc2⟩ := hc2c
  cases l1 with
  | nil =>
    have hf : s.first = some n := by simpa using hfe
    have hprev0 : (s.heap n).prev = Option.none := hhp n (by simp)
    cases l2 with
    | nil =>
      have hlA : s.last = some n := by
        rw [hle]
        exact List.getLast?_concat []
      have hnext0 : (s.heap n).next = Option.none := hln n (List.getLast?_concat [])
      have hrm : removeNode s n = some ⟨hClear s.heap n, Option.none, Option.none,
          if s.cursor = some n then Option.none else s.cursor⟩ := by
        unfold removeNode
        dsimp only
        rw [hprev0, hnext0, if_pos hf]
        dsimp only
        rw [if_pos hlA]
      refine ⟨_, hrm, ?_, ?_, ?_, ?_, ?_⟩
      · show (hClear s.heap n n).prev = Option.none
        rw [hClear_self]
      · show (hClear s.heap n n).next = Option.none
        rw [hClear_self]
      · intro hcn
        show (if s.cursor = some n then Option.none else s.cursor) = (s.heap n).prev
        rw [if_pos hcn, hprev0]
      · intro hcn
        show (if s.cursor = some n then Option.none else s.cursor) = s.cursor
        rw [if_neg hcn]
      · exact ⟨List.nodup_nil, rfl, rfl, fun x hx => by simp at hx,
          fun x hx => by simp at hx, List.chain'_nil⟩
    | cons q t2 =>
      have hqmem : q ∈ q :: t2 := List.mem_cons_self q t2
      have hqn : q ≠ n := fun he => hn2 (List.mem_cons.mpr (Or.inl he.symm))
      have hnextq : (s.heap n).next = some q := (hnq q rfl).1
      have hglq : (q :: t2).getLast? = some ((q :: t2).getLast (List.cons_ne_nil q t2)) :=
        List.getLast?_eq_getLast _ _
      have hlq : s.last = some ((q :: t2).getLast (List.cons_ne_nil q t2)) := by
        rw [hle]
        simp [hglq]
      have hlqn : (q :: t2).getLast (List.cons_ne_nil q t2) ≠ n :=
        fun he => hn2 (he ▸ List.getLast_mem (List.cons_ne_nil q t2))
      have hlne : s.last ≠ some n := by
        rw [hlq]
        intro hc
        exact hlqn (Option.some.inj hc)
      have hrm : removeNode s n = some ⟨hClear (hSetPrev s.heap q Option.none) n,
          some q, s.last, if s.cursor = some n then Option.none else s.cursor⟩ := by
        unfold removeNode
        dsimp only
        rw [hprev0, hnextq, if_pos hf]
        dsimp only
        rw [if_neg hlne]
      refine ⟨_, hrm, ?_, ?_, ?_, ?_, ?_⟩
      · show (hClear (hSetPrev s.heap q Option.none) n n).prev = Option.none
        rw [hClear_self]
      · show (hClear (hSetPrev s.heap q Option.none) n n).next = Option.none
        rw [hClear_self]
      · intro hcn
        show (if s.cursor = some n then Option.none else s.cursor) = (s.heap n).prev
        rw [if_pos hcn, hprev0]
      · intro hcn
        show (if s.cursor = some n then Option.none else s.cursor) = s.cursor
        rw [if_neg hcn]
      · rw [List.nil_append]
        refine ⟨hnd2, rfl, ?_, ?_, ?_, ?_⟩
        · show s.last = (q :: t2).getLast?
          rw [hlq, hglq]
        · intro x hx
          have hxq : q = x := Option.some.inj hx
          show (hClear (hSetPrev s.heap q Option.none) n x).prev = Option.none
          rw [← hxq, hClear_ne _ _ _ hqn, hSetPrev_prev_self]
        · intro x hx
          have hxmem : x ∈ q :: t2 := List.mem_of_getLast?_eq_some hx
          have hxn : x ≠ n := fun he => hn2 (he ▸ hxmem)
          show (hClear (hSetPrev s.heap q Option.none) n x).next = Option.none
          rw [hClear_ne _ _ _ hxn, hSetPrev_next]
          refine hln x ?_
          simpa using hx
        · refine chain'_rel_congr s.heap _ (q :: t2) ?_ hc2
          intro x hx y hy hr
          have hxn : x ≠ n := fun he => hn2 (he ▸ hx)
          have hyn : y ≠ n := fun he => hn2 (he ▸ hy)
          constructor
          · show (hClear (hSetPrev s.heap q Option.none) n x).next = some y
            rw [hClear_ne _ _ _ hxn, hSetPrev_next]
            exact hr.1
          · show (hClear (hSetPrev s.heap q Option.none) n y).prev = some x
            by_cases hyq : y = q
            · exfalso
              have h2 : (s.heap y).prev = some x := hr.2
              rw [hyq, (hnq q rfl).2] at h2
              exact hxn (Option.some.inj h2).symm
            · rw [hClear_ne _ _ _ hyn, hSetPrev_prev_ne _ _ _ _ hyq]
              exact hr.2
  | cons a t1 =>
    have hfa : s.first = some a := by simpa using hfe
    have hane : a ≠ n := fun he => hn1 (List.mem_cons.mpr (Or.inl he.symm))
    have hfne : s.first ≠ some n := by
      rw [hfa]
      intro hc
      exact hane (Option.some.inj hc)
    have hglp : (a :: t1).getLast? = some ((a :: t1).getLast (List.cons_ne_nil a t1)) :=
      List.getLast?_eq_getLast _ _
    have hpmem : (a :: t1).getLast (List.cons_ne_nil a t1) ∈ a :: t1 :=
      List.getLast_mem _
    have hpn : (a :: t1).getLast (List.cons_ne_nil a t1) ≠ n := fun he => hn1 (he ▸ hpmem)
    have hpn' : (s.heap n).prev = some ((a :: t1).getLast (List.cons_ne_nil a t1)) :=
      (hmid _ hglp n rfl).2
    have hpnext : (s.heap ((a :: t1).getLast (List.cons_ne_nil a t1))).next = some n :=
      (hmid _ hglp n rfl).1
    cases l2 with
    | nil =>
      have hlC : s.last = some n := by
        rw [hle]
        exact List.getLast?_concat _
      have hnext0 : (s.heap n).next = Option.none := hln n (List.getLast?_concat _)
      have hrm : removeNode s n = some
          ⟨hClear (hSetNext s.heap ((a :: t1).getLast (List.cons_ne_nil a t1)) Option.none) n,
            s.first, some ((a :: t1).getLast (List.cons_ne_nil a t1)),
            if s.cursor = some n then some ((a :: t1).getLast (List.cons_ne_nil a t1))
            else s.cursor⟩ := by
        unfold removeNode
        dsimp only
        rw [hpn', hnext0, if_neg hfne]
        dsimp only
        rw [if_pos hlC]
      refine ⟨_, hrm, ?_, ?_, ?_, ?_, ?_⟩
      · show (hClear (hSetNext s.heap ((a :: t1).getLast (List.cons_ne_nil a t1))
          Option.none) n n).prev = Option.none
        rw [hClear_self]
      · show (hClear (hSetNext s.heap ((a :: t1).getLast (List.cons_ne_nil a t1))
          Option.none) n n).next = Option.none
        rw [hClear_self]
      · intro hcn
        show (if s.cursor = some n then some ((a :: t1).getLast (List.cons_ne_nil a t1))
          else s.cursor) = (s.heap n).prev
        rw [if_pos hcn, hpn']
      · intro hcn
        show (if s.cursor = some n then some ((a :: t1).getLast (List.cons_ne_nil a t1))
          else s.cursor) = s.cursor
        rw [if_neg hcn]
      · rw [List.append_nil]
        refine ⟨hnd1, ?_, ?_, ?_, ?_, ?_⟩
        · show s.first = (a :: t1).head?
          exact hfa
        · show some ((a :: t1).getLast (List.cons_ne_nil a t1)) = (a :: t1).getLast?
          exact hglp.symm
        · intro x hx
          have hxa : a = x := Option.some.inj hx
          show (hClear (hSetNext s.heap ((a :: t1).getLast (List.cons_ne_nil a t1))
            Option.none) n x).prev = Option.none
          rw [← hxa, hClear_ne _ _ _ hane, hSetNext_prev]
          exact hhp a rfl
        · intro x hx
          have hxl : (a :: t1).getLast (List.cons_ne_nil a t1) = x := by
            rw [hglp] at hx
            exact Option.some.inj hx
          show (hClear (hSetNext s.heap ((a :: t1).getLast (List.cons_ne_nil a t1))
            Option.none) n x).next = Option.none
          rw [← hxl, hClear_ne _ _ _ hpn, hSetNext_next_self]
        · refine chain'_rel_congr s.heap _ (a :: t1) ?_ hc1
          intro x hx y hy hr
          have hxn : x ≠ n := fun he => hn1 (he ▸ hx)
          have hyn : y ≠ n := fun he => hn1 (he ▸ hy)
          constructor
          · show (hClear (hSetNext s.heap ((a :: t1).getLast (List.cons_ne_nil a t1))
              Option.none) n x).next = some y
            by_cases hxp : x = (a :: t1).getLast (List.cons_ne_nil a t1)
            · exfalso
              have h2 : (s.heap x).next = some y := hr.1
              rw [hxp, hpnext] at h2
              exact hyn (Option.some.inj h2).symm
            · rw [hClear_ne _ _ _ hxn, hSetNext_next_ne _ _ _ _ hxp]
              exact hr.1
          · show (hClear (hSetNext s.heap ((a :: t1).getLast (List.cons_ne_nil a t1))
              Option.none) n y).prev = some x
            rw [hClear_ne _ _ _ hyn, hSetNext_prev]
            exact hr.2
    | cons q t2 =>
      have hqmem : q ∈ q :: t2 := List.mem_cons_self q t2
      have hqn : q ≠ n := fun he => hn2 (List.mem_cons.mpr (Or.inl he.symm))
      have hnextq : (s.heap n).next = some q := (hnq q rfl).1
      have hglq : (q :: t2).getLast? = some ((q :: t2).getLast (List.cons_ne_nil q t2)) :=
        List.getLast?_eq_getLast _ _
      have hlq : s.last = some ((q :: t2).getLast (List.cons_ne_nil q t2)) := by
        rw [hle, List.getLast?_append, List.getLast?_cons_cons, hglq]
        rfl
      have hlqn : (q :: t2).getLast (List.cons_ne_nil q t2) ≠ n :=
        fun he => hn2 (he ▸ List.getLast_mem (List.cons_ne_nil q t2))
      have hlne : s.last ≠ some n := by
        rw [hlq]
        intro hc
        exact hlqn (Option.some.inj hc)
      have hrm : removeNode s n = some
          ⟨hClear (hSetPrev (hSetNext s.heap ((a :: t1).getLast (List.cons_ne_nil a t1))
              (some q)) q (some ((a :: t1).getLast (List.cons_ne_nil a t1)))) n,
            s.first, s.last,
            if s.cursor = some n then some ((a :: t1).getLast (List.cons_ne_nil a t1))
            else s.cursor⟩ := by
        unfold removeNode
        dsimp only
        rw [hpn', hnextq, if_neg hfne]
        dsimp only
        rw [if_neg hlne]
      refine ⟨_, hrm, ?_, ?_, ?_, ?_, ?_⟩
      · show (hClear (hSetPrev (hSetNext s.heap ((a :: t1).getLast (List.cons_ne_nil a t1))
          (some q)) q (some ((a :: t1).getLast (List.cons_ne_nil a t1)))) n n).prev = Option.none
        rw [hClear_self]
      · show (hClear (hSetPrev (hSetNext s.heap ((a :: t1).getLast (List.cons_ne_nil a t1))
          (some q)) q (some ((a :: t1).getLast (List.cons_ne_nil a t1)))) n n).next = Option.none
        rw [hClear_self]
      · intro hcn
        show (if s.cursor = some n then some ((a :: t1).getLast (List.cons_ne_nil a t1))
          else s.cursor) = (s.heap n).prev
        rw [if_pos hcn, hpn']
      · intro hcn
        show (if s.cursor = some n then some ((a :: t1).getLast (List.cons_ne_nil a t1))
          else s.cursor) = s.cursor
        rw [if_neg hcn]
      · refine ⟨?_, ?_, ?_, ?_, ?_, ?_⟩
        · rw [List.nodup_append]
          refine ⟨hnd1, hnd2, ?_⟩
          intro x hx hy
          exact hdisj hx (List.mem_cons_of_mem n hy)
        · show s.first = ((a :: t1) ++ q :: t2).head?
          exact hfa
        · show s.last = ((a :: t1) ++ q :: t2).getLast?
          rw [hlq, List.getLast?_append, hglq]
          rfl
        · intro x hx
          have hxa : a = x := Option.some.inj hx
          have haq : a ≠ q := fun he => hdisj (List.mem_cons_self a t1)
            (List.mem_cons_of_mem n (List.mem_cons.mpr (Or.inl he)))
          show (hClear (hSetPrev (hSetNext s.heap ((a :: t1).getLast (List.cons_ne_nil a t1))
            (some q)) q (some ((a :: t1).getLast (List.cons_ne_nil a t1)))) n x).prev = Option.none
          rw [← hxa, hClear_ne _ _ _ hane, hSetPrev_prev_ne _ _ _ _ haq, hSetNext_prev]
          exact hhp a rfl
        · intro x hx
          have hxl : (q :: t2).getLast (List.cons_ne_nil q t2) = x := by
            rw [List.getLast?_append, hglq] at hx
            exact Option.some.inj hx
          have hxmem : x ∈ q :: t2 := by
            rw [← hxl]
            exact List.getLast_mem _
          have hxn : x ≠ n := fun he => hn2 (he ▸ hxmem)
          have hxp : x ≠ (a :: t1).getLast (List.cons_ne_nil a t1) := by
            intro he
            refine hdisj ?_ (List.mem_cons_of_mem n hxmem)
            rw [he] at hxmem ⊢
            exact hpmem
          show (hClear (hSetPrev (hSetNext s.heap ((a :: t1).getLast (List.cons_ne_nil a t1))
            (some q)) q (some ((a :: t1).getLast (List.cons_ne_nil a t1)))) n x).next = Option.none
          rw [hClear_ne _ _ _ hxn, hSetPrev_next, hSetNext_next_ne _ _ _ _ hxp]
          refine hln x ?_
          rw [List.getLast?_append, List.getLast?_cons_cons, hglq, hxl]
          rfl
        · rw [List.chain'_append]
          refine ⟨?_, ?_, ?_⟩
          · refine chain'_rel_congr s.heap _ (a :: t1) ?_ hc1
            intro x hx y hy hr
            have hxn : x ≠ n := fun he => hn1 (he ▸ hx)
            have hyn : y ≠ n := fun he => hn1 (he ▸ hy)
            have hyq : y ≠ q := by
              intro he
              refine hdisj hy (List.mem_cons_of_mem n ?_)
              exact List.mem_cons.mpr (Or.inl he)
            constructor
            · show (hClear (hSetPrev (hSetNext s.heap
                ((a :: t1).getLast (List.cons_ne_nil a t1)) (some q)) q
                (some ((a :: t1).getLast (List.cons_ne_nil a t1)))) n x).next = some y
              by_cases hxp : x = (a :: t1).getLast (List.cons_ne_nil a t1)
              · exfalso
                have h2 : (s.heap x).next = some y := hr.1
                rw [hxp, hpnext] at h2
                exact hyn (Option.some.inj h2).symm
              · rw [hClear_ne _ _ _ hxn, hSetPrev_next, hSetNext_next_ne _ _ _ _ hxp]
                exact hr.1
            · show (hClear (hSetPrev (hSetNext s.heap
                ((a :: t1).getLast (List.cons_ne_nil a t1)) (some q)) q
                (some ((a :: t1).getLast (List.cons_ne_nil a t1)))) n y).prev = some x
              rw [hClear_ne _ _ _ hyn, hSetPrev_prev_ne _ _ _ _ hyq, hSetNext_prev]
              exact hr.2
          · refine chain'_rel_congr s.heap _ (q :: t2) ?_ hc2
            intro x hx y hy hr
            have hxn : x ≠ n := fun he => hn2 (he ▸ hx)
            have hyn : y ≠ n := fun he => hn2 (he ▸ hy)
            have hxp : x ≠ (a :: t1).getLast (List.cons_ne_nil a t1) := by
              intro he
              refine hdisj ?_ (List.mem_cons_of_mem n hx)
              rw [he] at hx ⊢
              exact hpmem
            constructor
            · show (hClear (hSetPrev (hSetNext s.heap
                ((a :: t1).getLast (List.cons_ne_nil a t1)) (some q)) q
                (some ((a :: t1).getLast (List.cons_ne_nil a t1)))) n x).next = some y
              rw [hClear_ne _ _ _ hxn, hSetPrev_next, hSetNext_next_ne _ _ _ _ hxp]
              exact hr.1
            · show (hClear (hSetPrev (hSetNext s.heap
                ((a :: t1).getLast (List.cons_ne_nil a t1)) (some q)) q
                (some ((a :: t1).getLast (List.cons_ne_nil a t1)))) n y).prev = some x
              by_cases hyq : y = q
              · exfalso
                have h2 : (s.heap y).prev = some x := hr.2
                rw [hyq, (hnq q rfl).2] at h2
                exact hxn (Option.some.inj h2).symm
              · rw [hClear_ne _ _ _ hyn, hSetPrev_prev_ne _ _ _ _ hyq, hSetNext_prev]
                exact hr.2
          · intro x hx y hy
            have hxp : (a :: t1).getLast (List.cons_ne_nil a t1) = x := by
              rw [hglp] at hx
              exact Option.some.inj hx
            have hyq : q = y := Option.some.inj hy
            constructor
            · show (hClear (hSetPrev (hSetNext s.heap
                ((a :: t1).getLast (List.cons_ne_nil a t1)) (some q)) q
                (some ((a :: t1).getLast (List.cons_ne_nil a t1)))) n x).next = some y
              rw [← hxp, ← hyq, hClear_ne _ _ _ hpn, hSetPrev_next, hSetNext_next_self]
            · show (hClear (hSetPrev (hSetNext s.heap
                ((a :: t1).getLast (List.cons_ne_nil a t1)) (some q)) q
                (some ((a :: t1).getLast (List.cons_ne_nil a t1)))) n y).prev = some x
              rw [← hxp, ← hyq, hClear_ne _ _ _ hqn, hSetPrev_prev_self]

theorem latched_error_blocks_emission_witness :
    bErrW.lastError = kErrorNoHeapMemory ∧ kErrorNoHeapMemory ≠ kErrorOk ∧
    bind bErrW 0 = some (bErrW, kErrorNoHeapMemory) ∧
    emit bErrW 9 Operand.none Operand.none Operand.none Operand.none = (bErrW, kErrorNoHeapMemory) := by
  have h := latched_error_blocks_emission bErrW kErrorNoHeapMemory rfl (by decide)
  exact ⟨rfl, by decide, h.1 0, h.2.2.2.2.2.2 9 _ _ _ _ (by decide)⟩

/-- Witness for removeNode_correct: on the concrete three-node chain 1-2-3 with
    the cursor on node 2, removing node 2 succeeds, clears its links, moves the
    cursor to node 1, and leaves a well-formed chain 1-3. -/
theorem removeNode_correct_witness :
    ∃ s', removeNode s8w 2 = some s' ∧
      (s'.heap 2).prev = Option.none ∧ (s'.heap 2).next = Option.none ∧
      (s8w.cursor = some 2 → s'.cursor = (s8w.heap 2).prev) ∧
      (s8w.cursor ≠ some 2 → s'.cursor = s8w.cursor) ∧
      Wf s' ([1] ++ [3]) :=
  removeNode_correct s8w [1] [3] 2
    ⟨by decide, rfl, rfl,
      fun a ha => by rw [← Option.some.inj ha]; decide,
      fun a ha => by rw [← Option.some.inj ha]; decide,
      List.chain'_cons.mpr ⟨⟨rfl, rfl⟩, List.chain'_cons.mpr ⟨⟨rfl, rfl⟩,
        List.chain'_singleton 3⟩⟩⟩

end Asmjit
